import Mathlib

/-!
Verification of the YOLO↔COCO converter and the COCO dataset merger.

This file gives a shallow embedding, in Lean 4, of the core logic of
`yolococo/convert.py` (`yolo_to_coco`, `coco_to_yolo_files`) and
`coco_merge/merger.py` (`dedup_licenses`, `merge_datasets`), and proves
the behavioural properties claimed of them.

Modelling conventions:
* Python floats are modelled as exact rationals (`ℚ`); `round(x, n)` is
  modelled as round-half-to-even of `x·10^n` divided by `10^n`.
* Python dicts are modelled either as lookup functions or as association
  lists with insert-overwrites-value semantics, preserving insertion order.
* File-system interaction is factored out: directory scanning, file reading
  and size probing are inputs; file writing is an explicit event trace.
* `int(s)` / `float(s)` are modelled on the ASCII decimal subset
  (optional sign, digits, for floats also fraction and exponent); the
  exotic Python forms (underscores, inf/nan, unicode digits) are outside
  the model.
-/

namespace YoloCoco

/-- ASCII whitespace recognised by Python `str.strip` / `str.split`. -/
def isPySpace (c : Char) : Bool :=
  c = ' ' || c = '\t' || c = '\n' || c = '\r' || c = '\x0b' || c = '\x0c'

/-- Python `s.strip()` (ASCII whitespace subset). -/
def pyStrip (s : String) : String :=
  String.mk (((s.toList.dropWhile isPySpace).reverse.dropWhile isPySpace).reverse)

/-- Helper for `pySplit`: accumulates the current token (reversed). -/
def pySplitAux : List Char → List Char → List String
  | [], acc => if acc.isEmpty then [] else [String.mk acc.reverse]
  | c :: cs, acc =>
    if isPySpace c then
      if acc.isEmpty then pySplitAux cs []
      else String.mk acc.reverse :: pySplitAux cs []
    else pySplitAux cs (c :: acc)

/-- Python `s.split()` with no arguments: split on runs of whitespace,
no empty tokens. -/
def pySplit (s : String) : List String :=
  pySplitAux s.toList []

/-- Value of a nonempty all-digit character list, `none` otherwise. -/
def natOfDigits (cs : List Char) : Option Nat :=
  if cs.isEmpty || !(cs.all Char.isDigit) then none
  else some (cs.foldl (fun acc c => acc * 10 + (c.toNat - 48)) 0)

/-- Split an optional leading sign; returns (negative?, rest). -/
def splitSign : List Char → Bool × List Char
  | '+' :: cs => (false, cs)
  | '-' :: cs => (true, cs)
  | cs => (false, cs)

/-- Python `int(s)` on the ASCII decimal subset: surrounding whitespace,
optional sign, then at least one digit. -/
def parsePyInt (s : String) : Option Int :=
  let cs := (pyStrip s).toList
  let (neg, cs) := splitSign cs
  match natOfDigits cs with
  | none => none
  | some n => some (if neg then -(n : Int) else (n : Int))

/-- Mantissa of a float literal: digits, optionally a point and more
digits; at least one digit overall. Returns (numerator, number of
fractional digits). -/
def parseMantissa (cs : List Char) : Option (Nat × Nat) :=
  let intPart := cs.takeWhile Char.isDigit
  let rest := cs.dropWhile Char.isDigit
  match rest with
  | '.' :: rest2 =>
    let fracPart := rest2.takeWhile Char.isDigit
    let rest3 := rest2.dropWhile Char.isDigit
    if !rest3.isEmpty then none
    else if intPart.isEmpty && fracPart.isEmpty then none
    else
      let iv := intPart.foldl (fun acc c => acc * 10 + (c.toNat - 48)) 0
      let fv := fracPart.foldl (fun acc c => acc * 10 + (c.toNat - 48)) 0
      some (iv * 10 ^ fracPart.length + fv, fracPart.length)
  | [] =>
    match natOfDigits intPart with
    | none => none
    | some n => some (n, 0)
  | _ => none

/-- Python `float(s)` on the ASCII decimal subset: optional sign, digits
with optional fractional part, optional exponent. -/
def parsePyFloat (s : String) : Option ℚ :=
  let cs := (pyStrip s).toList
  let (neg, cs) := splitSign cs
  let mant := cs.takeWhile (fun c => c ≠ 'e' && c ≠ 'E')
  let rest := cs.dropWhile (fun c => c ≠ 'e' && c ≠ 'E')
  let expVal : Option Int :=
    match rest with
    | [] => some 0
    | _ :: ecs =>
      let (eneg, ecs) := splitSign ecs
      match natOfDigits ecs with
      | none => none
      | some n => some (if eneg then -(n : Int) else (n : Int))
  match parseMantissa mant, expVal with
  | some (num, scale), some e =>
    let base : ℚ := (num : ℚ) / (10 : ℚ) ^ scale
    let scaled : ℚ := if 0 ≤ e then base * (10 : ℚ) ^ e.toNat else base / (10 : ℚ) ^ (-e).toNat
    some (if neg then -scaled else scaled)
  | _, _ => none

/-- Round half to even (banker's rounding), as Python `round` on one
argument. -/
def rhe (q : ℚ) : Int :=
  let f := ⌊q⌋
  let r := q - (f : ℚ)
  if r < 1 / 2 then f
  else if 1 / 2 < r then f + 1
  else if f % 2 = 0 then f else f + 1

/-- Python `round(q, n)` for `n ≥ 0` decimals: round-half-even applied
at the `n`-th decimal. -/
def pyRound (q : ℚ) (n : Nat) : ℚ :=
  ((rhe (q * (10 : ℚ) ^ n) : Int) : ℚ) / (10 : ℚ) ^ n

/-- Final `/`-separated component of a path string, `pathlib.Path(s).name`. -/
def pyBaseName (s : String) : String :=
  String.mk ((s.toList.reverse.takeWhile (fun c => c ≠ '/')).reverse)

/-- `pathlib.Path(s).stem`: final path component without its last
suffix (a suffix starts at the last dot, provided it is not the first
character of the name). -/
def pyStem (s : String) : String :=
  let nm := pyBaseName s
  let cs := nm.toList
  let sufLen := (cs.reverse.takeWhile (fun c => c ≠ '.')).length
  if sufLen < cs.length then
    if cs.length - sufLen - 1 > 0 then String.mk (cs.take (cs.length - sufLen - 1)) else nm
  else nm

/-- Association-list model of a Python dict: overwrite value in place,
else append; preserves insertion order. -/
def dictInsert {α β : Type} [BEq α] (l : List (α × β)) (k : α) (v : β) : List (α × β) :=
  if l.any (fun p => p.1 == k) then l.map (fun p => if p.1 == k then (k, v) else p)
  else l ++ [(k, v)]

/-- Python dict lookup, `d.get(k)`. -/
def dictGet? {α β : Type} [BEq α] (l : List (α × β)) (k : α) : Option β :=
  (l.find? (fun p => p.1 == k)).map (·.2)

/-- First-occurrence-preserving dedup, used to model dict key iteration
order. -/
def dedupFirstAux {α : Type} [BEq α] (seen : List α) : List α → List α
  | [] => []
  | x :: xs =>
    if seen.contains x then dedupFirstAux seen xs
    else x :: dedupFirstAux (x :: seen) xs

/-- Keys of a Python dict built by successive insertion from a list, in
iteration order. -/
def dedupFirst {α : Type} [BEq α] (l : List α) : List α :=
  dedupFirstAux [] l

/-- Clamp to `[0, 1]`, as `clamp01` in `coco_to_yolo_files`. -/
def clamp01 (v : ℚ) : ℚ :=
  max 0 (min 1 v)

/-- Stable insertion of `x` into a sorted list: `x` is placed after
every element `y` with `le y x`. -/
def stableInsert {α : Type} (le : α → α → Bool) (x : α) : List α → List α
  | [] => [x]
  | y :: ys => if le y x then y :: stableInsert le x ys else x :: y :: ys

/-- Python `sorted(l)` for a total boolean order `le`: a stable sort,
modelled by insertion sort (extensionally equal to any stable sort). -/
def pySorted {α : Type} (le : α → α → Bool) (l : List α) : List α :=
  l.foldl (fun acc x => stableInsert le x acc) []

/-- Python `set.add`: membership-preserving insert, modelled on a
duplicate-free list. -/
def setAdd {α : Type} [BEq α] (l : List α) (x : α) : List α :=
  if l.contains x then l else l ++ [x]

/-- Python `set(l1) == set(l2)` for lists. -/
def sameSet {α : Type} [BEq α] (l1 l2 : List α) : Bool :=
  l1.all (l2.contains ·) && l2.all (l1.contains ·)

/-! ## Data model (§3 of the documentation, COCO dicts in the source) -/

/-- A COCO image record.  `width`, `height` and `license` are optional
because input JSON may omit them; the converter always sets the sizes. -/
structure Image where
  id : Int
  file_name : String
  width : Option Int := none
  height : Option Int := none
  license : Option Int := none
deriving DecidableEq

/-- A COCO annotation record.  `bbox` is `(x, y, w, h)` in absolute
pixels; `segmentation` is constantly `[]` in this code base and omitted. -/
structure Annotation where
  id : Int
  image_id : Int
  category_id : Int
  bbox : ℚ × ℚ × ℚ × ℚ
  area : ℚ
  iscrowd : Int := 0
deriving DecidableEq

/-- A COCO category record. -/
structure Category where
  id : Int
  name : String
deriving DecidableEq

/-- A COCO license record.  Input licenses may lack `id` or `url`;
deduplicated output licenses always carry an `id` and carry `url` only
when nonempty. -/
structure License where
  id : Option Int := none
  name : String
  url : Option String := none
deriving DecidableEq

/-- A COCO dataset aggregate, as consumed/produced by the merger. -/
structure Dataset where
  licenses : List License := []
  images : List Image := []
  annotations : List Annotation := []
  categories : List Category := []
deriving DecidableEq

/-- Output of `yolo_to_coco`: dict with keys images, annotations,
categories. -/
structure CocoOut where
  images : List Image
  annotations : List Annotation
  categories : List Category
deriving DecidableEq

/-! ## `yolo_to_coco` (convert.py 54-218)

File-system interaction is factored out: each discovered image file is
presented as a `YoloImg` carrying the data the pure logic reads.  The
list is assumed already sorted, as `sorted(images_dir.rglob(...))`
produces it. -/

/-- One discovered image file: its output file name (`file_name_for`),
the Pillow probe result (`_read_img_size`), and the lines of the
matching label file when that file exists. -/
structure YoloImg where
  relName : String
  probedSize : Option (Int × Int) := none
  labelLines : Option (List String) := none
deriving DecidableEq

/-- `isinstance(bbox_round, int) and bbox_round >= 0` (convert.py 182). -/
def roundEnabled : Option Int → Bool
  | some r => decide (0 ≤ r)
  | none => false

/-- Round a value iff rounding is enabled. -/
def maybeRound (bboxRound : Option Int) (q : ℚ) : ℚ :=
  match bboxRound with
  | some r => if 0 ≤ r then pyRound q r.toNat else q
  | none => q

/-- Parsing of one label line (convert.py 152-166): strip, skip blanks,
split on whitespace, require 5 or 6 tokens, parse int then four floats;
any failure yields `none` (the line is skipped). -/
def parseLabelLine (line : String) : Option (Int × ℚ × ℚ × ℚ × ℚ) :=
  let t := pyStrip line
  if t = "" then none
  else
    let parts := pySplit t
    if parts.length = 5 || parts.length = 6 then
      match parts with
      | p0 :: p1 :: p2 :: p3 :: p4 :: _ =>
        match parsePyInt p0, parsePyFloat p1, parsePyFloat p2, parsePyFloat p3, parsePyFloat p4 with
        | some cls, some xc, some yc, some ww, some hh => some (cls, xc, yc, ww, hh)
        | _, _, _, _, _ => none
      | _ => none
    else none

/-- The geometric transform of one accepted label line
(convert.py 170-204): absolute box, clip to image bounds, optional
rounding, assembled annotation. -/
def yoloLineAnn (bboxRound : Option Int) (annId imgId : Int) (w h : Int)
    (b : Int × ℚ × ℚ × ℚ × ℚ) : Annotation :=
  let cls := b.1
  let xc := b.2.1
  let yc := b.2.2.1
  let ww := b.2.2.2.1
  let hh := b.2.2.2.2
  let W : ℚ := (w : ℚ)
  let H : ℚ := (h : ℚ)
  let abs_w := ww * W
  let abs_h := hh * H
  let x_min := xc * W - abs_w / 2
  let y_min := yc * H - abs_h / 2
  let x_min := max 0 x_min
  let y_min := max 0 y_min
  let abs_w := max 0 (min abs_w (W - x_min))
  let abs_h := max 0 (min abs_h (H - y_min))
  { id := annId, image_id := imgId, category_id := cls,
    bbox := (maybeRound bboxRound x_min, maybeRound bboxRound y_min,
             maybeRound bboxRound abs_w, maybeRound bboxRound abs_h),
    area := maybeRound bboxRound (abs_w * abs_h), iscrowd := 0 }

/-- Loop state of `yolo_to_coco`: the two id counters, the accumulated
records and the set of class indices seen on accepted label lines. -/
structure ConvState where
  img_id : Int
  ann_id : Int
  images : List Image
  annotations : List Annotation
  seen_class_ids : List Int

/-- Size resolution for one image (convert.py 135-143): the sizes CSV
map takes precedence, then the Pillow probe; `none` means the operation
fails. -/
def sizeFor (sizes_map : String → Option (Int × Int)) (img : YoloImg) : Option (Int × Int) :=
  match sizes_map img.relName with
  | some wh => some wh
  | none => img.probedSize

/-- Body of the per-image loop of `yolo_to_coco` (convert.py 132-207). -/
def processYoloImage (sizes_map : String → Option (Int × Int)) (bboxRound : Option Int)
    (st : ConvState) (img : YoloImg) : Except String ConvState :=
  match sizeFor sizes_map img with
  | none =>
    .error ("Missing image size for " ++ img.relName ++ ". Install Pillow or provide --sizes CSV.")
  | some (w, h) =>
    let boxes := (img.labelLines.getD []).filterMap parseLabelLine
    let newAnns := boxes.mapIdx (fun k b => yoloLineAnn bboxRound (st.ann_id + (k : Int)) st.img_id w h b)
    .ok { img_id := st.img_id + 1,
          ann_id := st.ann_id + (boxes.length : Int),
          images := st.images ++
            [{ id := st.img_id, file_name := img.relName, width := some w, height := some h }],
          annotations := st.annotations ++ newAnns,
          seen_class_ids := (boxes.map (fun b => b.1)).foldl setAdd st.seen_class_ids }

/-- `yolo_to_coco` (convert.py 54-218).  `classes` is the loaded class
list (empty when no classes file); `sizes_map` the CSV size table;
`img_files` the sorted discovered images. -/
def yolo_to_coco (classes : List String) (sizes_map : String → Option (Int × Int))
    (bboxRound : Option Int) (img_files : List YoloImg) : Except String CocoOut :=
  if img_files.isEmpty then .error "No images found under: images_dir"
  else
    match img_files.foldlM (processYoloImage sizes_map bboxRound)
        { img_id := 1, ann_id := 1, images := [], annotations := [], seen_class_ids := [] } with
    | .error e => .error e
    | .ok st =>
      let categories : List Category :=
        if classes.isEmpty then
          (pySorted (fun a b => decide (a ≤ b)) st.seen_class_ids).map
            (fun cid => { id := cid, name := "class_" ++ toString cid })
        else
          classes.enum.map (fun p => { id := (p.1 : Int), name := p.2 })
      .ok { images := st.images, annotations := st.annotations, categories := categories }

/-! ## `coco_to_yolo_files` (convert.py 221-326)

The function's only outputs are files; we model the file system as an
ordered trace of write events, so that "no partial output" is a
statement about the trace accompanying an error. -/

/-- A file write performed by `coco_to_yolo_files`: one label file
(stem plus the numeric content of its lines, one tuple per emitted
line) or the classes file. -/
inductive WriteEvent where
  | labelFile (stem : String) (lines : List (Int × ℚ × ℚ × ℚ × ℚ))
  | classesFile (names : List String)
deriving DecidableEq

/-- `c.get("name") or "category_<id>"`: empty (falsy) names fall back
to a placeholder. -/
def catName (c : Category) : String :=
  if c.name = "" then "category_" ++ toString c.id else c.name

/-- Python list index assignment `l[i] = v`, with negative-index wrap;
`none` on IndexError. -/
def pySetIdx {α : Type} (l : List α) (i : Int) (v : α) : Option (List α) :=
  let j : Int := if i < 0 then (l.length : Int) + i else i
  if 0 ≤ j ∧ j < (l.length : Int) then some (l.set j.toNat v) else none

/-- Keep-mode class-name list (convert.py 261-268): a `max(id)+1`-sized
slot array filled from the categories, gaps back-filled with
placeholders.  `none` models the `ValueError`/`IndexError` raised on an
empty category list or an out-of-range id. -/
def keepClasses (cats : List Category) : Option (List String) :=
  match (cats.map (·.id)).max? with
  | none => none
  | some mx =>
    let init : List (Option String) := List.replicate (mx + 1).toNat none
    match cats.foldlM (fun acc c => pySetIdx acc c.id (some (catName c))) init with
    | none => none
    | some filled =>
      some (filled.enum.map (fun p => p.2.getD ("category_" ++ toString (p.1 : Int))))

/-- Dense-mode class-id map (convert.py 271-272): categories sorted by
id, each id mapped to its position; a duplicated id takes the later
position (dict overwrite). -/
def denseCatIdMap (sorted_cats : List Category) (cid : Int) : Option Int :=
  (((sorted_cats.enum).reverse).find? (fun p => p.2.id == cid)).map (fun p => ((p.1 : Nat) : Int))

/-- Class indexing of `coco_to_yolo_files` (convert.py 257-273): the
`catid_to_yolo` lookup and the `yolo_classes` name list. -/
def classIndexing (keep_category_ids : Bool) (cats : List Category) :
    Except String ((Int → Option Int) × List String) :=
  if keep_category_ids then
    match keepClasses cats with
    | none => .error "max() arg is an empty sequence"
    | some names =>
      .ok (fun cid => if cats.any (fun c => c.id == cid) then some cid else none, names)
  else
    let sorted_cats := pySorted (fun a b : Category => decide (a.id ≤ b.id)) cats
    .ok (denseCatIdMap sorted_cats, sorted_cats.map catName)

/-- Inverse transform for one annotation (convert.py 296-316): unknown
category ids are skipped (`none`), otherwise the normalized clamped
YOLO tuple is produced. -/
def yoloLineOf (w h : Int) (catid_to_yolo : Int → Option Int) (a : Annotation) :
    Option (Int × ℚ × ℚ × ℚ × ℚ) :=
  match catid_to_yolo a.category_id with
  | none => none
  | some yolo_cls =>
    let x := a.bbox.1
    let y := a.bbox.2.1
    let bw := a.bbox.2.2.1
    let bh := a.bbox.2.2.2
    let xc := (x + bw / 2) / (w : ℚ)
    let yc := (y + bh / 2) / (h : ℚ)
    let ww := bw / (w : ℚ)
    let hh := bh / (h : ℚ)
    some (yolo_cls, clamp01 xc, clamp01 yc, clamp01 ww, clamp01 hh)

/-- The qualifying annotations of one image (convert.py 278-285):
crowd annotations and annotations of absent images are dropped while
grouping; for a present image id the group is the in-order filter. -/
def annsForImage (anns : List Annotation) (imgId : Int) : List Annotation :=
  anns.filter (fun a => a.iscrowd != 1 && a.image_id == imgId)

/-- The per-image write loop (convert.py 288-321).  Writes happen as
the loop runs; an invalid size aborts with the events already written. -/
def writeLabelLoop (skip_empty_labels : Bool) (catid_to_yolo : Int → Option Int)
    (anns : List Annotation) :
    List (Int × Image) → List WriteEvent → List WriteEvent × Option String
  | [], evs => (evs, none)
  | (imgId, img) :: rest, evs =>
    match img.width, img.height with
    | some w, some h =>
      if w > 0 && h > 0 then
        let lines := (annsForImage anns imgId).filterMap (yoloLineOf w h catid_to_yolo)
        let evs' :=
          if !lines.isEmpty || !skip_empty_labels then
            evs ++ [.labelFile (pyStem img.file_name) lines]
          else evs
        writeLabelLoop skip_empty_labels catid_to_yolo anns rest evs'
      else (evs, some ("Image " ++ img.file_name ++ " missing valid width/height in COCO."))
    | _, _ => (evs, some ("Image " ++ img.file_name ++ " missing valid width/height in COCO."))

/-- `coco_to_yolo_files` (convert.py 221-326): returns the ordered
write trace and the raised error, if any. -/
def coco_to_yolo_files (coco : Dataset) (keep_category_ids skip_empty_labels : Bool) :
    List WriteEvent × Option String :=
  let imagesD := coco.images.foldl (fun acc img => dictInsert acc img.id img) []
  let anns := coco.annotations
  if imagesD.isEmpty then ([], some "No images found in COCO file.")
  else
    let cats :=
      if coco.categories.isEmpty then
        (pySorted (fun a b => decide (a ≤ b)) (dedupFirst (anns.map (·.category_id)))).map
          (fun cid => { id := cid, name := "category_" ++ toString cid })
      else coco.categories
    match classIndexing keep_category_ids cats with
    | .error e => ([], some e)
    | .ok (catid_to_yolo, yolo_classes) =>
      match writeLabelLoop skip_empty_labels catid_to_yolo anns imagesD [] with
      | (evs, some e) => (evs, some e)
      | (evs, none) => (evs ++ [.classesFile yolo_classes], none)


/-- The size test of the write loop (convert.py 289-295): both
dimensions present and positive. -/
def validDims (img : Image) : Bool :=
  match img.width, img.height with
  | some w, some h => w > 0 && h > 0
  | _, _ => false

/-- The write events one image entry contributes (convert.py 301-321)
when its size is valid: one label file, unless empty labels are
skipped. -/
def labelEventsFor (skip_empty_labels : Bool) (catid_to_yolo : Int → Option Int)
    (anns : List Annotation) (p : Int × Image) : List WriteEvent :=
  match p.2.width, p.2.height with
  | some w, some h =>
    if w > 0 && h > 0 then
      if !((annsForImage anns p.1).filterMap (yoloLineOf w h catid_to_yolo)).isEmpty ||
          !skip_empty_labels then
        [.labelFile (pyStem p.2.file_name)
          ((annsForImage anns p.1).filterMap (yoloLineOf w h catid_to_yolo))]
      else []
    else []
  | _, _ => []

/-! ## `merge_datasets` (merger.py 16-206)

JSON loading is factored out: each input is a `MergeInput` carrying the
already-loaded dataset and the input path's stem (the only path datum
the merge reads, for `prefix_mode="basename"`). -/

/-- One merge input: the input file's stem and its loaded dataset. -/
structure MergeInput where
  stem : String
  ds : Dataset
deriving DecidableEq

/-- `categories_signature` (merger.py 16-21): `(id, name)` pairs sorted
by id (stable). -/
def categories_signature (cats : List Category) : List (Int × String) :=
  pySorted (fun a b => decide (a.1 ≤ b.1)) (cats.map (fun c => (c.id, c.name)))

/-- `categories_name_map` (merger.py 24-26): dict from name to id,
later entries overwriting earlier ones. -/
def categoriesNameMap (cats : List Category) (n : String) : Option Int :=
  ((cats.reverse).find? (fun c => c.name == n)).map (·.id)

/-- Dedup key of a license: `(name, url)` with url defaulting to `""`
(merger.py 35-37). -/
def licenseKey (lic : License) : String × String :=
  (lic.name, lic.url.getD "")

/-- The license record emitted for a first-seen key (merger.py 40-42):
fresh id, name, and the url only when nonempty. -/
def normLicense (next_id : Int) (lic : License) : License :=
  { id := some next_id, name := lic.name,
    url := if lic.url.getD "" = "" then none else some (lic.url.getD "") }

/-- Worker for `dedup_licenses`: scans the concatenated licenses once,
assigning the next sequential id to each first-seen key. -/
def dedupLicAux : List License → List ((String × String) × Int) → List License → Int →
    List License × List ((String × String) × Int)
  | [], keyMap, out, _ => (out, keyMap)
  | lic :: rest, keyMap, out, next_id =>
    if (dictGet? keyMap (licenseKey lic)).isSome then dedupLicAux rest keyMap out next_id
    else
      dedupLicAux rest (keyMap ++ [(licenseKey lic, next_id)])
        (out ++ [normLicense next_id lic]) (next_id + 1)

/-- `dedup_licenses` (merger.py 29-45): the merged license list and the
key-to-new-id table. -/
def dedup_licenses (all_licenses : List License) :
    List License × List ((String × String) × Int) :=
  dedupLicAux all_licenses [] [] 1

/-- The id-map of the name-alignment branch (merger.py 115): a dict
keyed by this dataset's id for each name, valued at the canonical
dataset's id for that name, keys iterated in name first-occurrence
order. -/
def buildAlignMap (dsCats firstCats : List Category) : List (Int × Int) :=
  (dedupFirst (dsCats.map (·.name))).foldl
    (fun acc n =>
      match categoriesNameMap dsCats n, categoriesNameMap firstCats n with
      | some k, some v => dictInsert acc k v
      | _, _ => acc)
    []

/-- The identity id-map of the signature-match branch (merger.py 117). -/
def identCatMap (cats : List Category) : List (Int × Int) :=
  cats.foldl (fun acc c => dictInsert acc c.id c.id) []

/-- Category check of one dataset against the canonical one
(merger.py 96-118): emptiness check, signature comparison, optional
name-based alignment. -/
def catMapOne (first_cats : List Category) (align_by_name : Bool) (ds : Dataset) :
    Except String (List (Int × Int)) :=
  if ds.categories.isEmpty then .error "Dataset has no 'categories'."
  else if categories_signature ds.categories = categories_signature first_cats then
    .ok (identCatMap ds.categories)
  else if !align_by_name then
    .error "Category mismatch between dataset 0 and dataset i. Use align_by_name if names match but IDs differ."
  else if !sameSet (ds.categories.map (·.name)) (first_cats.map (·.name)) then
    .error "Cannot align categories for dataset i: names differ."
  else .ok (buildAlignMap ds.categories first_cats)

/-- Category handling of `merge_datasets` (merger.py 88-118): per
dataset, the old-to-canonical category id-map, or the fatal error. -/
def computeCatMaps (datasets : List Dataset) (align_by_name : Bool) :
    Except String (List (List (Int × Int))) :=
  match datasets with
  | [] => .error "list index out of range"
  | first :: _ =>
    if first.categories.isEmpty then .error "First dataset has no 'categories'."
    else datasets.mapM (catMapOne first.categories align_by_name)

/-- Per-dataset license id-map (merger.py 150-154). -/
def buildLicMap (keyMap : List ((String × String) × Int)) (lics : List License) :
    List (Int × Int) :=
  lics.foldl (fun acc lic =>
    match dictGet? keyMap (licenseKey lic), lic.id with
    | some nid, some oid => dictInsert acc oid nid
    | _, _ => acc) []

/-- Loop state of the image/annotation renumbering (merger.py 135-141):
id counters, accumulated output records, and the filenames accepted so
far across all datasets. -/
structure MergeState where
  next_img_id : Int
  next_ann_id : Int
  images : List Image
  annotations : List Annotation
  seen_filenames : List String

/-- Body of the per-image loop of `merge_datasets` (merger.py 165-196):
duplicate-name skip, image renumbering, license remap, and renumbered
copies of the image's annotations with remapped category ids. -/
def processImage (drop_dup : Bool) (pfx : String) (lic_map : List (Int × Int))
    (cat_map : List (Int × Int)) (anns : List Annotation) (st : MergeState) (img : Image) :
    MergeState :=
  let new_file_name := pfx ++ img.file_name
  if drop_dup && st.seen_filenames.contains new_file_name then st
  else
    let newLicense : Option Int :=
      match img.license with
      | some old => dictGet? lic_map old
      | none => none
    let newImg : Image :=
      { img with id := st.next_img_id, file_name := new_file_name, license := newLicense }
    let matched := anns.filter (fun a => a.image_id == img.id)
    let newAnns := matched.mapIdx (fun k a =>
      { a with id := st.next_ann_id + (k : Int), image_id := st.next_img_id,
               category_id := (dictGet? cat_map a.category_id).getD a.category_id })
    { next_img_id := st.next_img_id + 1,
      next_ann_id := st.next_ann_id + (matched.length : Int),
      images := st.images ++ [newImg],
      annotations := st.annotations ++ newAnns,
      seen_filenames := st.seen_filenames ++ [new_file_name] }

/-- The per-dataset image loop of `merge_datasets` (merger.py 165-196). -/
def processDataset (drop_dup : Bool) (pfx : String) (lic_map cat_map : List (Int × Int))
    (ds : Dataset) (st : MergeState) : MergeState :=
  ds.images.foldl (processImage drop_dup pfx lic_map cat_map ds.annotations) st

/-- Display prefix of dataset `i` (merger.py 144-148). -/
def prefixFor (prefix_mode : String) (custom_prefixes : Option (List String))
    (stem : String) (i : Nat) : String :=
  if prefix_mode = "basename" then stem ++ "_"
  else if prefix_mode = "custom" then (custom_prefixes.getD []).getD i ""
  else ""

/-- `all_licenses` (merger.py 126-128): the inputs' license lists
concatenated in input order. -/
def allLicenses (datasets : List Dataset) : List License :=
  datasets.foldl (fun acc ds => acc ++ ds.licenses) []

/-- The whole renumbering loop of `merge_datasets` (merger.py 135-196),
over the inputs zipped with their category id-maps. -/
def mergeFold (dd : Bool) (pm : String) (cp : Option (List String))
    (keyMap : List ((String × String) × Int)) (inputs : List MergeInput)
    (cat_maps : List (List (Int × Int))) : MergeState :=
  ((inputs.zip cat_maps).enum).foldl
    (fun st p =>
      processDataset dd (prefixFor pm cp p.2.1.stem p.1)
        (buildLicMap keyMap p.2.1.ds.licenses) p.2.2 p.2.1.ds st)
    { next_img_id := 1, next_ann_id := 1, images := [], annotations := [],
      seen_filenames := [] }

/-- `merge_datasets` (merger.py 48-206). -/
def merge_datasets (inputs : List MergeInput) (prefix_mode : String)
    (custom_prefixes : Option (List String)) (align_by_name : Bool)
    (drop_duplicate_filenames : Bool) : Except String Dataset :=
  if prefix_mode = "custom" &&
      ((custom_prefixes.getD []).isEmpty ||
        (custom_prefixes.getD []).length != inputs.length) then
    .error "With prefix_mode='custom', custom_prefixes must match number of inputs"
  else
    match computeCatMaps (inputs.map (·.ds)) align_by_name with
    | .error e => .error e
    | .ok cat_maps =>
      .ok { licenses := (dedup_licenses (allLicenses (inputs.map (·.ds)))).1,
            images := (mergeFold drop_duplicate_filenames prefix_mode custom_prefixes
              (dedup_licenses (allLicenses (inputs.map (·.ds)))).2 inputs cat_maps).images,
            annotations := (mergeFold drop_duplicate_filenames prefix_mode custom_prefixes
              (dedup_licenses (allLicenses (inputs.map (·.ds)))).2 inputs cat_maps).annotations,
            categories := pySorted (fun a b : Category => decide (a.id ≤ b.id))
              ((inputs.map (·.ds)).headD ({} : Dataset)).categories }

/-! ## Helper lemmas -/

/-- The id list `[1, …, n]`, as assigned by the sequential counters. -/
def idRange (n : Nat) : List Int :=
  List.map (fun k : Nat => ((k : Int) + 1)) (List.range n)

lemma idRange_succ (n : Nat) : idRange (n + 1) = idRange n ++ [(n : Int) + 1] := by
  simp [idRange, List.range_succ]

lemma idRange_add (n m : Nat) :
    idRange (n + m) = idRange n ++ (List.range m).map (fun k : Nat => (n : Int) + 1 + (k : Int)) := by
  unfold idRange
  rw [List.range_add, List.map_append, List.map_map]
  congr 1
  apply List.map_congr_left
  intro a _
  simp only [Function.comp_apply]
  push_cast
  ring

lemma mapIdx_const_fn {α β : Type} (g : Nat → β) (l : List α) :
    l.mapIdx (fun i _ => g i) = (List.range l.length).map g := by
  rw [List.mapIdx_eq_enum_map]
  have h : Function.uncurry (fun (i : Nat) (_ : α) => g i) = g ∘ Prod.fst := rfl
  rw [h, ← List.map_map, List.enum_map_fst]

lemma mem_mapIdx {α β : Type} {b : β} {f : Nat → α → β} {l : List α} :
    b ∈ l.mapIdx f → ∃ i a, a ∈ l ∧ b = f i a := by
  intro h
  rw [List.mapIdx_eq_enum_map] at h
  obtain ⟨p, hp, rfl⟩ := List.mem_map.mp h
  have h2 : p.2 ∈ l := by
    rw [List.enum_eq_zip_range] at hp
    exact (List.of_mem_zip hp).2
  exact ⟨p.1, p.2, h2, rfl⟩

/-- Invariant preservation along a successful `foldlM` over `Except`. -/
lemma foldlM_ok_inv {σ α : Type} {f : σ → α → Except String σ} {P : σ → Prop} :
    ∀ (l : List α) (init res : σ),
      (∀ s a s', a ∈ l → P s → f s a = .ok s' → P s') →
      P init → l.foldlM f init = .ok res → P res := by
  intro l
  induction l with
  | nil =>
    intro init res _ hP h
    rw [List.foldlM_nil] at h
    cases h
    exact hP
  | cons a t ih =>
    intro init res hstep hP h
    rw [List.foldlM_cons] at h
    cases hfa : f init a with
    | error e =>
      rw [hfa] at h
      exact absurd h (by simp [Bind.bind, Except.bind])
    | ok s =>
      rw [hfa] at h
      have h' : t.foldlM f s = .ok res := h
      exact ih s res (fun s₁ a' s' ha => hstep s₁ a' s' (List.mem_cons_of_mem _ ha))
        (hstep init a s (List.mem_cons_self _ _) hP hfa) h'

lemma mapIdx_map_proj {α β γ : Type} (f : Nat → α → β) (g : β → γ) (h : Nat → γ)
    (l : List α) (hfg : ∀ i a, g (f i a) = h i) :
    (l.mapIdx f).map g = (List.range l.length).map h := by
  rw [List.mapIdx_eq_enum_map, List.map_map]
  have hc : ∀ p ∈ l.enum, (g ∘ Function.uncurry f) p = (h ∘ Prod.fst) p :=
    fun p _ => hfg p.1 p.2
  rw [List.map_congr_left hc, ← List.map_map, List.enum_map_fst]

/-- One conversion step preserves the id-counter/density invariant. -/
lemma processYoloImage_ids {sizes : String → Option (Int × Int)} {br : Option Int}
    {st st' : ConvState} {img : YoloImg}
    (h : processYoloImage sizes br st img = .ok st')
    (h1 : st.img_id = (st.images.length : Int) + 1)
    (h2 : st.ann_id = (st.annotations.length : Int) + 1)
    (h3 : st.images.map (·.id) = idRange st.images.length)
    (h4 : st.annotations.map (·.id) = idRange st.annotations.length) :
    st'.img_id = (st'.images.length : Int) + 1 ∧
    st'.ann_id = (st'.annotations.length : Int) + 1 ∧
    st'.images.map (·.id) = idRange st'.images.length ∧
    st'.annotations.map (·.id) = idRange st'.annotations.length := by
  unfold processYoloImage at h
  cases hs : sizeFor sizes img with
  | none => rw [hs] at h; cases h
  | some wh =>
    obtain ⟨w, hgt⟩ := wh
    rw [hs] at h
    injection h with h
    subst h
    dsimp only
    refine ⟨?_, ?_, ?_, ?_⟩
    · simp only [List.length_append, List.length_cons, List.length_nil, h1]
      push_cast
      ring
    · simp only [List.length_append, List.length_mapIdx, h2]
      push_cast
      ring
    · rw [List.map_append, h3, List.length_append]
      simp only [List.map_cons, List.map_nil, List.length_cons, List.length_nil, h1]
      exact (idRange_succ _).symm
    · rw [List.map_append, h4, List.length_append, List.length_mapIdx]
      rw [mapIdx_map_proj (fun k b => yoloLineAnn br (st.ann_id + (k : Int)) st.img_id w hgt b)
        (fun x => x.id) (fun k => st.ann_id + (k : Int))
        (List.filterMap parseLabelLine (img.labelLines.getD [])) (fun i a => rfl)]
      rw [idRange_add]
      congr 1
      apply List.map_congr_left
      intro k _
      rw [h2]

/-- Decompose a successful `yolo_to_coco` run into its fold result. -/
lemma yolo_to_coco_ok_fold {classes : List String} {sizes : String → Option (Int × Int)}
    {br : Option Int} {imgs : List YoloImg} {d : CocoOut}
    (h : yolo_to_coco classes sizes br imgs = .ok d) :
    ∃ st, imgs.foldlM (processYoloImage sizes br)
        { img_id := 1, ann_id := 1, images := [], annotations := [],
          seen_class_ids := [] } = .ok st ∧
      d.images = st.images ∧ d.annotations = st.annotations ∧
      d.categories = (if classes.isEmpty then
          (pySorted (fun a b => decide (a ≤ b)) st.seen_class_ids).map
            (fun cid => { id := cid, name := "class_" ++ toString cid })
        else classes.enum.map (fun p => { id := (p.1 : Int), name := p.2 })) := by
  unfold yolo_to_coco at h
  by_cases he : imgs.isEmpty = true
  · rw [if_pos he] at h; cases h
  · rw [if_neg he] at h
    cases hf : imgs.foldlM (processYoloImage sizes br)
        { img_id := 1, ann_id := 1, images := [], annotations := [],
          seen_class_ids := [] } with
    | error e => rw [hf] at h; cases h
    | ok st =>
      rw [hf] at h
      injection h with h
      subst h
      exact ⟨st, rfl, rfl, rfl, rfl⟩

lemma conv_ok_ids {classes : List String} {sizes : String → Option (Int × Int)}
    {br : Option Int} {imgs : List YoloImg} {d : CocoOut}
    (h : yolo_to_coco classes sizes br imgs = .ok d) :
    d.images.map (·.id) = idRange d.images.length ∧
    d.annotations.map (·.id) = idRange d.annotations.length := by
  obtain ⟨st, hf, hi, ha, -⟩ := yolo_to_coco_ok_fold h
  have key := foldlM_ok_inv (P := fun s : ConvState =>
      s.img_id = (s.images.length : Int) + 1 ∧
      s.ann_id = (s.annotations.length : Int) + 1 ∧
      s.images.map (·.id) = idRange s.images.length ∧
      s.annotations.map (·.id) = idRange s.annotations.length)
    imgs
    { img_id := 1, ann_id := 1, images := [], annotations := [], seen_class_ids := [] } st
    (fun s a s' _ hP hstep => processYoloImage_ids hstep hP.1 hP.2.1 hP.2.2.1 hP.2.2.2)
    ⟨by norm_num, by norm_num, rfl, rfl⟩ hf
  rw [hi, ha]
  exact ⟨key.2.2.1, key.2.2.2⟩

/-- One merge-loop step preserves the id-counter/density invariant. -/
lemma processImage_ids (dd : Bool) (pfx : String) (lm cm : List (Int × Int))
    (anns : List Annotation) (st : MergeState) (img : Image)
    (h1 : st.next_img_id = (st.images.length : Int) + 1)
    (h2 : st.next_ann_id = (st.annotations.length : Int) + 1)
    (h3 : st.images.map (·.id) = idRange st.images.length)
    (h4 : st.annotations.map (·.id) = idRange st.annotations.length) :
    (processImage dd pfx lm cm anns st img).next_img_id =
      (((processImage dd pfx lm cm anns st img).images.length : Int)) + 1 ∧
    (processImage dd pfx lm cm anns st img).next_ann_id =
      (((processImage dd pfx lm cm anns st img).annotations.length : Int)) + 1 ∧
    (processImage dd pfx lm cm anns st img).images.map (·.id) =
      idRange (processImage dd pfx lm cm anns st img).images.length ∧
    (processImage dd pfx lm cm anns st img).annotations.map (·.id) =
      idRange (processImage dd pfx lm cm anns st img).annotations.length := by
  unfold processImage
  by_cases hskip : (dd && st.seen_filenames.contains (pfx ++ img.file_name)) = true
  · rw [if_pos hskip]
    exact ⟨h1, h2, h3, h4⟩
  · rw [if_neg hskip]
    dsimp only
    refine ⟨?_, ?_, ?_, ?_⟩
    · simp only [List.length_append, List.length_cons, List.length_nil, h1]
      push_cast
      ring
    · simp only [List.length_append, List.length_mapIdx, h2]
      push_cast
      ring
    · rw [List.map_append, h3, List.length_append]
      simp only [List.map_cons, List.map_nil, List.length_cons, List.length_nil, h1]
      exact (idRange_succ _).symm
    · rw [List.map_append, h4, List.length_append, List.length_mapIdx]
      have hnew : List.map (fun x => x.id)
          (List.mapIdx (fun k a =>
              ({ id := st.next_ann_id + (k : Int), image_id := st.next_img_id,
                 category_id := (dictGet? cm a.category_id).getD a.category_id,
                 bbox := a.bbox, area := a.area, iscrowd := a.iscrowd } : Annotation))
            (List.filter (fun a => a.image_id == img.id) anns)) =
          (List.range (List.filter (fun a => a.image_id == img.id) anns).length).map
            (fun k : Nat => st.next_ann_id + (k : Int)) :=
        mapIdx_map_proj _ _ _ _ (fun i a => rfl)
      rw [hnew]
      rw [idRange_add]
      congr 1
      apply List.map_congr_left
      intro k _
      rw [h2]

lemma processDataset_ids (dd : Bool) (pfx : String) (lm cm : List (Int × Int))
    (ds : Dataset) (st : MergeState)
    (h1 : st.next_img_id = (st.images.length : Int) + 1)
    (h2 : st.next_ann_id = (st.annotations.length : Int) + 1)
    (h3 : st.images.map (·.id) = idRange st.images.length)
    (h4 : st.annotations.map (·.id) = idRange st.annotations.length) :
    (processDataset dd pfx lm cm ds st).next_img_id =
      (((processDataset dd pfx lm cm ds st).images.length : Int)) + 1 ∧
    (processDataset dd pfx lm cm ds st).next_ann_id =
      (((processDataset dd pfx lm cm ds st).annotations.length : Int)) + 1 ∧
    (processDataset dd pfx lm cm ds st).images.map (·.id) =
      idRange (processDataset dd pfx lm cm ds st).images.length ∧
    (processDataset dd pfx lm cm ds st).annotations.map (·.id) =
      idRange (processDataset dd pfx lm cm ds st).annotations.length := by
  unfold processDataset
  refine List.foldlRecOn (motive := fun s : MergeState =>
      s.next_img_id = (s.images.length : Int) + 1 ∧
      s.next_ann_id = (s.annotations.length : Int) + 1 ∧
      s.images.map (·.id) = idRange s.images.length ∧
      s.annotations.map (·.id) = idRange s.annotations.length)
    ds.images (processImage dd pfx lm cm ds.annotations) st ⟨h1, h2, h3, h4⟩ ?_
  intro b hb a _
  exact processImage_ids dd pfx lm cm ds.annotations b a hb.1 hb.2.1 hb.2.2.1 hb.2.2.2

lemma mergeFold_ids (dd : Bool) (pm : String) (cp : Option (List String))
    (km : List ((String × String) × Int)) (inputs : List MergeInput)
    (cat_maps : List (List (Int × Int))) :
    (mergeFold dd pm cp km inputs cat_maps).next_img_id =
      (((mergeFold dd pm cp km inputs cat_maps).images.length : Int)) + 1 ∧
    (mergeFold dd pm cp km inputs cat_maps).next_ann_id =
      (((mergeFold dd pm cp km inputs cat_maps).annotations.length : Int)) + 1 ∧
    (mergeFold dd pm cp km inputs cat_maps).images.map (·.id) =
      idRange (mergeFold dd pm cp km inputs cat_maps).images.length ∧
    (mergeFold dd pm cp km inputs cat_maps).annotations.map (·.id) =
      idRange (mergeFold dd pm cp km inputs cat_maps).annotations.length := by
  unfold mergeFold
  refine List.foldlRecOn (motive := fun s : MergeState =>
      s.next_img_id = (s.images.length : Int) + 1 ∧
      s.next_ann_id = (s.annotations.length : Int) + 1 ∧
      s.images.map (·.id) = idRange s.images.length ∧
      s.annotations.map (·.id) = idRange s.annotations.length)
    _ _ _ ⟨by norm_num, by norm_num, rfl, rfl⟩ ?_
  intro b hb p _
  exact processDataset_ids dd (prefixFor pm cp p.2.1.stem p.1)
    (buildLicMap km p.2.1.ds.licenses) p.2.2 p.2.1.ds b hb.1 hb.2.1 hb.2.2.1 hb.2.2.2

/-- Decompose a successful `merge_datasets` run into its parts. -/
lemma merge_datasets_ok_parts {inputs : List MergeInput} {pm : String}
    {cp : Option (List String)} {abn dd : Bool} {m : Dataset}
    (h : merge_datasets inputs pm cp abn dd = .ok m) :
    ∃ cat_maps, computeCatMaps (inputs.map (·.ds)) abn = .ok cat_maps ∧
      m.images = (mergeFold dd pm cp
        (dedup_licenses (allLicenses (inputs.map (·.ds)))).2 inputs cat_maps).images ∧
      m.annotations = (mergeFold dd pm cp
        (dedup_licenses (allLicenses (inputs.map (·.ds)))).2 inputs cat_maps).annotations ∧
      m.licenses = (dedup_licenses (allLicenses (inputs.map (·.ds)))).1 ∧
      m.categories = pySorted (fun a b : Category => decide (a.id ≤ b.id))
        (((inputs.map (·.ds)).headD ({} : Dataset)).categories) := by
  unfold merge_datasets at h
  by_cases hg : (pm = "custom" &&
      ((cp.getD []).isEmpty || (cp.getD []).length != inputs.length)) = true
  · rw [if_pos hg] at h; cases h
  · rw [if_neg hg] at h
    cases hcm : computeCatMaps (inputs.map (·.ds)) abn with
    | error e => rw [hcm] at h; cases h
    | ok cat_maps =>
      rw [hcm] at h
      injection h with h
      subst h
      exact ⟨cat_maps, rfl, rfl, rfl, rfl, rfl⟩

/-! ## C1: forward geometric transform -/

/-- C1: for an image of size `(W, H)` and an accepted label line
`(xc, yc, w, h)`, `yolo_to_coco` emits an annotation whose bbox equals
the clipped values `x_min = max(0, xc·W − w·W/2)`,
`y_min = max(0, yc·H − h·H/2)`, `width = max(0, min(w·W, W − x_min))`,
`height = max(0, min(h·H, H − y_min))` and whose area is `width·height`,
each component rounded independently to `bbox_round` decimals when
rounding is enabled; concretely, a 100×100 image with the line
`"0 0.5 0.5 0.2 0.4"` yields bbox `[40, 30, 20, 40]` and area `800`. -/
theorem claim_C1 :
    (∀ (r : Nat) (annId imgId w h cls : Int) (xc yc ww hh : ℚ),
      yoloLineAnn (some (r : Int)) annId imgId w h (cls, xc, yc, ww, hh) =
        { id := annId, image_id := imgId, category_id := cls,
          bbox :=
            (pyRound (max 0 (xc * (w : ℚ) - ww * (w : ℚ) / 2)) r,
             pyRound (max 0 (yc * (h : ℚ) - hh * (h : ℚ) / 2)) r,
             pyRound (max 0 (min (ww * (w : ℚ))
               ((w : ℚ) - max 0 (xc * (w : ℚ) - ww * (w : ℚ) / 2)))) r,
             pyRound (max 0 (min (hh * (h : ℚ))
               ((h : ℚ) - max 0 (yc * (h : ℚ) - hh * (h : ℚ) / 2)))) r),
          area :=
            pyRound
              (max 0 (min (ww * (w : ℚ))
                 ((w : ℚ) - max 0 (xc * (w : ℚ) - ww * (w : ℚ) / 2))) *
               max 0 (min (hh * (h : ℚ))
                 ((h : ℚ) - max 0 (yc * (h : ℚ) - hh * (h : ℚ) / 2)))) r,
          iscrowd := 0 }) ∧
    (yolo_to_coco [] (fun _ => some (100, 100)) (some 2)
        [{ relName := "img.jpg", labelLines := some ["0 0.5 0.5 0.2 0.4"] }]).toOption.map
      (fun d => d.annotations.map (fun a => (a.bbox, a.area))) =
      some [((40, 30, 20, 40), 800)] := by
  constructor
  · intro r annId imgId w h cls xc yc ww hh
    simp [yoloLineAnn, maybeRound, Int.toNat_natCast, Int.natCast_nonneg]
  · with_unfolding_all rfl

/-! ## C9: malformed label lines are silently skipped -/

/-- C9: a label line that is blank, does not split into 5 or 6 tokens,
or whose first five tokens fail to parse as an int followed by four
floats, is skipped: it contributes no annotation and raises no error,
and the per-image processing of the remaining lines is unchanged. -/
theorem claim_C9 :
    (∀ line : String, pyStrip line = "" → parseLabelLine line = none) ∧
    (∀ line : String,
      ¬((pySplit (pyStrip line)).length = 5 ∨ (pySplit (pyStrip line)).length = 6) →
      parseLabelLine line = none) ∧
    (∀ (line p0 p1 p2 p3 p4 : String) (rest : List String),
      pySplit (pyStrip line) = p0 :: p1 :: p2 :: p3 :: p4 :: rest →
      (parsePyInt p0 = none ∨ parsePyFloat p1 = none ∨ parsePyFloat p2 = none ∨
        parsePyFloat p3 = none ∨ parsePyFloat p4 = none) →
      parseLabelLine line = none) ∧
    (∀ (sizes : String → Option (Int × Int)) (br : Option Int) (st : ConvState)
       (img : YoloImg) (pre post : List String) (bad : String),
      parseLabelLine bad = none →
      processYoloImage sizes br st { img with labelLines := some (pre ++ bad :: post) } =
      processYoloImage sizes br st { img with labelLines := some (pre ++ post) }) := by
  refine ⟨?_, ?_, ?_, ?_⟩
  · intro line h
    simp [parseLabelLine, h]
  · intro line h
    unfold parseLabelLine
    dsimp only
    by_cases hb : pyStrip line = ""
    · simp [hb]
    · push_neg at h
      rw [if_neg hb]
      simp [h.1, h.2]
  · intro line p0 p1 p2 p3 p4 rest hsplit hfail
    unfold parseLabelLine
    dsimp only
    by_cases hb : pyStrip line = ""
    · simp [hb]
    · rw [if_neg hb, hsplit]
      split
      · cases hp0 : parsePyInt p0 <;> cases hp1 : parsePyFloat p1 <;>
          cases hp2 : parsePyFloat p2 <;> cases hp3 : parsePyFloat p3 <;>
          cases hp4 : parsePyFloat p4 <;> simp_all
      · rfl
  · intro sizes br st img pre post bad hbad
    have hb : (pre ++ bad :: post).filterMap parseLabelLine =
        (pre ++ post).filterMap parseLabelLine := by
      simp [List.filterMap_append, List.filterMap_cons, hbad]
    simp [processYoloImage, sizeFor, hb]

/-- Witness for C9 at concrete inputs: a blank line, a 3-token line, a
non-numeric class token, and a per-image run where inserting a junk
line changes nothing. -/
theorem claim_C9_witness :
    parseLabelLine "" = none ∧
    parseLabelLine "1 2 3" = none ∧
    parseLabelLine "x 0.5 0.5 0.2 0.4" = none ∧
    processYoloImage (fun _ => some (4, 4)) (some 2)
      { img_id := 1, ann_id := 1, images := [], annotations := [], seen_class_ids := [] }
      { relName := "a.jpg", labelLines := some ["0 0.5 0.5 0.2 0.4", "junk"] } =
    processYoloImage (fun _ => some (4, 4)) (some 2)
      { img_id := 1, ann_id := 1, images := [], annotations := [], seen_class_ids := [] }
      { relName := "a.jpg", labelLines := some ["0 0.5 0.5 0.2 0.4"] } :=
  ⟨claim_C9.1 "" rfl,
   claim_C9.2.1 "1 2 3" (by decide),
   claim_C9.2.2.1 "x 0.5 0.5 0.2 0.4" "x" "0.5" "0.5" "0.2" "0.4" [] (by decide)
     (Or.inl (by decide)),
   claim_C9.2.2.2 (fun _ => some (4, 4)) (some 2)
     { img_id := 1, ann_id := 1, images := [], annotations := [], seen_class_ids := [] }
     { relName := "a.jpg", labelLines := some ["0 0.5 0.5 0.2 0.4"] }
     ["0 0.5 0.5 0.2 0.4"] [] "junk" (by decide)⟩

/-! ## C10: annotations with unknown category ids are skipped -/

/-- An annotation whose category id the class-index map does not know
contributes nothing to any label file written by the loop. -/
lemma writeLabelLoop_drop_unknownCat (skipf : Bool) (cm : Int → Option Int)
    (pre post : List Annotation) (a : Annotation) (hcm : cm a.category_id = none) :
    ∀ (entries : List (Int × Image)) (evs : List WriteEvent),
      writeLabelLoop skipf cm (pre ++ a :: post) entries evs =
      writeLabelLoop skipf cm (pre ++ post) entries evs := by
  have key : ∀ (w h : Int) (imgId : Int),
      (annsForImage (pre ++ a :: post) imgId).filterMap (yoloLineOf w h cm) =
      (annsForImage (pre ++ post) imgId).filterMap (yoloLineOf w h cm) := by
    intro w h imgId
    unfold annsForImage
    rw [List.filter_append, List.filter_append, List.filter_cons]
    by_cases hq : (a.iscrowd != 1 && a.image_id == imgId) = true
    · rw [if_pos hq]
      simp [List.filterMap_append, List.filterMap_cons, yoloLineOf, hcm]
    · rw [if_neg hq]
  intro entries
  induction entries with
  | nil => intro evs; rfl
  | cons e rest ih =>
    intro evs
    obtain ⟨imgId, img⟩ := e
    unfold writeLabelLoop
    cases img.width with
    | none => rfl
    | some w =>
      cases img.height with
      | none => rfl
      | some h =>
        dsimp only
        by_cases hwh : (decide (w > 0) && decide (h > 0)) = true
        · rw [if_pos hwh, if_pos hwh, key w h imgId]
          exact ih _
        · rw [if_neg hwh, if_neg hwh]

/-- C10: in `coco_to_yolo_files`, a non-crowd annotation whose
`category_id` is unknown to the class-index map built from the (non
empty, hence non-synthesized) categories is silently skipped: removing
it changes neither the written files nor the error outcome. -/
theorem claim_C10 :
    ∀ (lic : List License) (imgs : List Image) (cats : List Category)
      (keep skipf : Bool) (pre post : List Annotation) (a : Annotation)
      (cm : Int → Option Int) (names : List String),
      cats.isEmpty = false →
      classIndexing keep cats = .ok (cm, names) →
      cm a.category_id = none →
      a.iscrowd ≠ 1 →
      coco_to_yolo_files
        { licenses := lic, images := imgs, annotations := pre ++ a :: post,
          categories := cats } keep skipf =
      coco_to_yolo_files
        { licenses := lic, images := imgs, annotations := pre ++ post,
          categories := cats } keep skipf := by
  intro lic imgs cats keep skipf pre post a cm names hcats hidx hcm _
  unfold coco_to_yolo_files
  by_cases hempty : (imgs.foldl (fun acc img => dictInsert acc img.id img) []).isEmpty = true
  · simp only [hempty, if_true]
  · simp only [hempty, hcats, Bool.false_eq_true, if_false, hidx]
    rw [writeLabelLoop_drop_unknownCat skipf cm pre post a hcm]

/-- Witness for C10: category id 7 is unknown to the class map built
from the single category `{0, "x"}`; dropping that annotation changes
nothing. -/
theorem claim_C10_witness :
    coco_to_yolo_files
      { licenses := [],
        images := [{ id := 1, file_name := "a.jpg", width := some 10, height := some 10 }],
        annotations :=
          [{ id := 1, image_id := 1, category_id := 0, bbox := (0, 0, 2, 2), area := 4 }] ++
            { id := 2, image_id := 1, category_id := 7, bbox := (0, 0, 2, 2), area := 4,
              iscrowd := 0 } :: [],
        categories := [{ id := 0, name := "x" }] } false false =
    coco_to_yolo_files
      { licenses := [],
        images := [{ id := 1, file_name := "a.jpg", width := some 10, height := some 10 }],
        annotations :=
          [{ id := 1, image_id := 1, category_id := 0, bbox := (0, 0, 2, 2), area := 4 }] ++ [],
        categories := [{ id := 0, name := "x" }] } false false :=
  claim_C10 []
    [{ id := 1, file_name := "a.jpg", width := some 10, height := some 10 }]
    [{ id := 0, name := "x" }] false false
    [{ id := 1, image_id := 1, category_id := 0, bbox := (0, 0, 2, 2), area := 4 }] []
    { id := 2, image_id := 1, category_id := 7, bbox := (0, 0, 2, 2), area := 4, iscrowd := 0 }
    (denseCatIdMap [{ id := 0, name := "x" }]) ["x"]
    rfl rfl rfl (by decide)

/-! ## C4: id density -/

/-- C4: in any dataset produced by `yolo_to_coco` or by
`merge_datasets`, image ids are exactly `1..count` in processing order
with no gaps, and likewise annotation ids. -/
theorem claim_C4 :
    (∀ (classes : List String) (sizes : String → Option (Int × Int)) (br : Option Int)
       (imgs : List YoloImg) (d : CocoOut),
      yolo_to_coco classes sizes br imgs = .ok d →
      d.images.map (·.id) = idRange d.images.length ∧
      d.annotations.map (·.id) = idRange d.annotations.length) ∧
    (∀ (inputs : List MergeInput) (pm : String) (cp : Option (List String)) (abn dd : Bool)
       (m : Dataset),
      merge_datasets inputs pm cp abn dd = .ok m →
      m.images.map (·.id) = idRange m.images.length ∧
      m.annotations.map (·.id) = idRange m.annotations.length) := by
  constructor
  · intro classes sizes br imgs d h
    exact conv_ok_ids h
  · intro inputs pm cp abn dd m h
    obtain ⟨cat_maps, -, him, ham, -, -⟩ := merge_datasets_ok_parts h
    rw [him, ham]
    have key := mergeFold_ids dd pm cp
      (dedup_licenses (allLicenses (inputs.map (·.ds)))).2 inputs cat_maps
    exact ⟨key.2.2.1, key.2.2.2⟩

/-- Witness for C4 at a one-image conversion and a one-input merge. -/
theorem claim_C4_witness :
    (yolo_to_coco [] (fun _ => some (4, 4)) (some 2)
        [{ relName := "a.jpg", labelLines := some ["0 0.5 0.5 0.5 0.5"] }] =
      .ok { images := [{ id := 1, file_name := "a.jpg", width := some 4, height := some 4 }],
            annotations := [{ id := 1, image_id := 1, category_id := 0, bbox := (1, 1, 2, 2), area := 4 }],
            categories := [{ id := 0, name := "class_0" }] }) ∧
    (({ images := [{ id := 1, file_name := "a.jpg", width := some 4, height := some 4 }],
        annotations := [{ id := 1, image_id := 1, category_id := 0, bbox := (1, 1, 2, 2), area := 4 }],
        categories := [{ id := 0, name := "class_0" }] } : CocoOut).images.map (·.id) =
      idRange 1 ∧
     ({ images := [{ id := 1, file_name := "a.jpg", width := some 4, height := some 4 }],
        annotations := [{ id := 1, image_id := 1, category_id := 0, bbox := (1, 1, 2, 2), area := 4 }],
        categories := [{ id := 0, name := "class_0" }] } : CocoOut).annotations.map (·.id) =
      idRange 1) ∧
    (merge_datasets
        [{ stem := "d1",
           ds := { licenses := [],
                   images := [{ id := 5, file_name := "a.jpg", width := some 3, height := some 3 }],
                   annotations := [{ id := 9, image_id := 5, category_id := 0, bbox := (0, 0, 1, 1), area := 1 }],
                   categories := [{ id := 0, name := "x" }] } }] "none" none false false =
      .ok { licenses := [],
            images := [{ id := 1, file_name := "a.jpg", width := some 3, height := some 3 }],
            annotations := [{ id := 1, image_id := 1, category_id := 0, bbox := (0, 0, 1, 1), area := 1 }],
            categories := [{ id := 0, name := "x" }] }) ∧
    (({ licenses := [],
        images := [{ id := 1, file_name := "a.jpg", width := some 3, height := some 3 }],
        annotations := [{ id := 1, image_id := 1, category_id := 0, bbox := (0, 0, 1, 1), area := 1 }],
        categories := [{ id := 0, name := "x" }] } : Dataset).images.map (·.id) =
      idRange 1 ∧
     ({ licenses := [],
        images := [{ id := 1, file_name := "a.jpg", width := some 3, height := some 3 }],
        annotations := [{ id := 1, image_id := 1, category_id := 0, bbox := (0, 0, 1, 1), area := 1 }],
        categories := [{ id := 0, name := "x" }] } : Dataset).annotations.map (·.id) =
      idRange 1) := by
  refine ⟨by with_unfolding_all rfl, ?_, by with_unfolding_all rfl, ?_⟩
  · exact claim_C4.1 [] (fun _ => some (4, 4)) (some 2)
      [{ relName := "a.jpg", labelLines := some ["0 0.5 0.5 0.5 0.5"] }] _
      (by with_unfolding_all rfl)
  · exact claim_C4.2
      [{ stem := "d1",
         ds := { licenses := [],
                 images := [{ id := 5, file_name := "a.jpg", width := some 3, height := some 3 }],
                 annotations := [{ id := 9, image_id := 5, category_id := 0, bbox := (0, 0, 1, 1), area := 1 }],
                 categories := [{ id := 0, name := "x" }] } }] "none" none false false _
      (by with_unfolding_all rfl)

/-! ## C7: duplicate-filename drop -/

/-- With dropping enabled, each accepted image's prefixed name goes to
both the output and the seen-set, which stays duplicate-free. -/
lemma processImage_seen (pfx : String) (lm cm : List (Int × Int))
    (anns : List Annotation) (st : MergeState) (img : Image)
    (hP : st.images.map (·.file_name) = st.seen_filenames ∧ st.seen_filenames.Nodup) :
    (processImage true pfx lm cm anns st img).images.map (·.file_name) =
      (processImage true pfx lm cm anns st img).seen_filenames ∧
    (processImage true pfx lm cm anns st img).seen_filenames.Nodup := by
  unfold processImage
  by_cases hskip : (true && st.seen_filenames.contains (pfx ++ img.file_name)) = true
  · rw [if_pos hskip]
    exact hP
  · rw [if_neg hskip]
    dsimp only
    constructor
    · rw [List.map_append, hP.1]
      rfl
    · have hmem : pfx ++ img.file_name ∉ st.seen_filenames := by
        intro hm
        exact hskip (by simpa [List.elem_iff] using hm)
      simp [List.nodup_append, hP.2, hmem]

lemma processDataset_seen (pfx : String) (lm cm : List (Int × Int)) (ds : Dataset)
    (st : MergeState)
    (hP : st.images.map (·.file_name) = st.seen_filenames ∧ st.seen_filenames.Nodup) :
    (processDataset true pfx lm cm ds st).images.map (·.file_name) =
      (processDataset true pfx lm cm ds st).seen_filenames ∧
    (processDataset true pfx lm cm ds st).seen_filenames.Nodup := by
  unfold processDataset
  refine List.foldlRecOn (motive := fun s : MergeState =>
      s.images.map (·.file_name) = s.seen_filenames ∧ s.seen_filenames.Nodup)
    ds.images (processImage true pfx lm cm ds.annotations) st hP ?_
  intro b hb a _
  exact processImage_seen pfx lm cm ds.annotations b a hb

lemma mergeFold_seen (pm : String) (cp : Option (List String))
    (km : List ((String × String) × Int)) (inputs : List MergeInput)
    (cat_maps : List (List (Int × Int))) :
    (mergeFold true pm cp km inputs cat_maps).images.map (·.file_name) =
      (mergeFold true pm cp km inputs cat_maps).seen_filenames ∧
    (mergeFold true pm cp km inputs cat_maps).seen_filenames.Nodup := by
  unfold mergeFold
  refine List.foldlRecOn (motive := fun s : MergeState =>
      s.images.map (·.file_name) = s.seen_filenames ∧ s.seen_filenames.Nodup)
    _ _ _ ⟨rfl, List.nodup_nil⟩ ?_
  intro b hb p _
  exact processDataset_seen (prefixFor pm cp p.2.1.stem p.1)
    (buildLicMap km p.2.1.ds.licenses) p.2.2 p.2.1.ds b hb

/-- C7: with `drop_duplicate_filenames` enabled, an image whose
prefixed name was already accepted (across all datasets processed so
far) is skipped along with all its annotations, so merged file names are
duplicate-free; concretely, merging two datasets that both contain
`"a.jpg"` keeps only the first image (width 5, not 7) and none of the
second image's annotations. -/
theorem claim_C7 :
    (∀ (pfx : String) (lm cm : List (Int × Int)) (anns : List Annotation)
       (st : MergeState) (img : Image),
      st.seen_filenames.contains (pfx ++ img.file_name) = true →
      processImage true pfx lm cm anns st img = st) ∧
    (∀ (inputs : List MergeInput) (pm : String) (cp : Option (List String)) (abn : Bool)
       (m : Dataset),
      merge_datasets inputs pm cp abn true = .ok m →
      (m.images.map (·.file_name)).Nodup) ∧
    (merge_datasets
        [{ stem := "d1",
           ds := { licenses := [],
                   images := [{ id := 1, file_name := "a.jpg", width := some 5, height := some 5 }],
                   annotations := [{ id := 1, image_id := 1, category_id := 0, bbox := (0, 0, 1, 1), area := 1 }],
                   categories := [{ id := 0, name := "x" }] } },
         { stem := "d2",
           ds := { licenses := [],
                   images := [{ id := 1, file_name := "a.jpg", width := some 7, height := some 7 }],
                   annotations := [{ id := 1, image_id := 1, category_id := 0, bbox := (0, 0, 2, 2), area := 4 }],
                   categories := [{ id := 0, name := "x" }] } }] "none" none false true =
      .ok { licenses := [],
            images := [{ id := 1, file_name := "a.jpg", width := some 5, height := some 5 }],
            annotations := [{ id := 1, image_id := 1, category_id := 0, bbox := (0, 0, 1, 1), area := 1 }],
            categories := [{ id := 0, name := "x" }] }) := by
  refine ⟨?_, ?_, by with_unfolding_all rfl⟩
  · intro pfx lm cm anns st img h
    unfold processImage
    rw [if_pos (by simpa using h)]
  · intro inputs pm cp abn m h
    obtain ⟨cat_maps, -, him, -, -, -⟩ := merge_datasets_ok_parts h
    rw [him]
    have key := mergeFold_seen pm cp
      (dedup_licenses (allLicenses (inputs.map (·.ds)))).2 inputs cat_maps
    rw [key.1]
    exact key.2

/-- Witness for C7: a state that has already accepted `"a.jpg"` skips
the identically named image, and the concrete two-dataset merge has
duplicate-free output names. -/
theorem claim_C7_witness :
    processImage true "" [] [] []
      { next_img_id := 2, next_ann_id := 1, images := [{ id := 1, file_name := "a.jpg" }],
        annotations := [], seen_filenames := ["a.jpg"] }
      { id := 7, file_name := "a.jpg" } =
    { next_img_id := 2, next_ann_id := 1, images := [{ id := 1, file_name := "a.jpg" }],
      annotations := [], seen_filenames := ["a.jpg"] } ∧
    (({ licenses := [],
        images := [{ id := 1, file_name := "a.jpg", width := some 5, height := some 5 }],
        annotations := [{ id := 1, image_id := 1, category_id := 0, bbox := (0, 0, 1, 1), area := 1 }],
        categories := [{ id := 0, name := "x" }] } : Dataset).images.map (·.file_name)).Nodup :=
  ⟨claim_C7.1 "" [] [] []
    { next_img_id := 2, next_ann_id := 1, images := [{ id := 1, file_name := "a.jpg" }],
      annotations := [], seen_filenames := ["a.jpg"] }
    { id := 7, file_name := "a.jpg" } (by decide),
   claim_C7.2.1
    [{ stem := "d1",
       ds := { licenses := [],
               images := [{ id := 1, file_name := "a.jpg", width := some 5, height := some 5 }],
               annotations := [{ id := 1, image_id := 1, category_id := 0, bbox := (0, 0, 1, 1), area := 1 }],
               categories := [{ id := 0, name := "x" }] } },
     { stem := "d2",
       ds := { licenses := [],
               images := [{ id := 1, file_name := "a.jpg", width := some 7, height := some 7 }],
               annotations := [{ id := 1, image_id := 1, category_id := 0, bbox := (0, 0, 2, 2), area := 4 }],
               categories := [{ id := 0, name := "x" }] } }] "none" none false
    { licenses := [],
      images := [{ id := 1, file_name := "a.jpg", width := some 5, height := some 5 }],
      annotations := [{ id := 1, image_id := 1, category_id := 0, bbox := (0, 0, 1, 1), area := 1 }],
      categories := [{ id := 0, name := "x" }] }
    (by with_unfolding_all rfl)⟩

/-! ## C6: license deduplication -/

lemma dictGet?_isSome_eq {α β : Type} [BEq α] [LawfulBEq α] (l : List (α × β)) (k : α) :
    (dictGet? l k).isSome = (l.map (·.1)).contains k := by
  induction l with
  | nil => rfl
  | cons p t ih =>
    cases h : p.1 == k with
    | true =>
      have h2 : (k == p.1) = true := by
        rw [beq_iff_eq] at h ⊢
        exact h.symm
      simp [dictGet?, List.find?, h, List.contains_cons, h2]
    | false =>
      have h2 : (k == p.1) = false := by
        rw [beq_eq_false_iff_ne] at h ⊢
        exact fun e => h e.symm
      simp only [dictGet?, List.find?, h, List.map_cons, List.contains_cons, h2,
        Bool.false_or]
      exact ih

lemma dedupFirstAux_congr {α : Type} [BEq α] :
    ∀ (l s1 s2 : List α), (∀ x, s1.contains x = s2.contains x) →
      dedupFirstAux s1 l = dedupFirstAux s2 l := by
  intro l
  induction l with
  | nil => intro s1 s2 _; rfl
  | cons x xs ih =>
    intro s1 s2 h
    unfold dedupFirstAux
    rw [h x]
    by_cases hc : s2.contains x = true
    · simp only [if_pos hc]
      exact ih s1 s2 h
    · simp only [if_neg hc]
      congr 1
      apply ih
      intro y
      simp [List.contains_cons, h y]

lemma dedupFirstAux_mem {α : Type} [BEq α] [LawfulBEq α] :
    ∀ (l seen : List α) (k : α), k ∈ l →
      k ∈ dedupFirstAux seen l ∨ seen.contains k = true := by
  intro l
  induction l with
  | nil => simp
  | cons x xs ih =>
    intro seen k hk
    unfold dedupFirstAux
    rcases List.mem_cons.mp hk with rfl | hk2
    · by_cases hc : seen.contains k = true
      · right
        exact hc
      · left
        rw [if_neg hc]
        exact List.mem_cons_self _ _
    · by_cases hc : seen.contains x = true
      · rw [if_pos hc]
        exact ih seen k hk2
      · rw [if_neg hc]
        rcases ih (x :: seen) k hk2 with h | h
        · left
          exact List.mem_cons_of_mem _ h
        · rw [List.contains_cons] at h
          cases hkx : (k == x) with
          | true =>
            left
            rw [beq_iff_eq] at hkx
            rw [hkx]
            exact List.mem_cons_self _ _
          | false =>
            right
            rw [hkx] at h
            simpa using h

/-- The normalized output license keeps the dedup key of its source. -/
lemma licenseKey_norm (lic : License) (n : Int) :
    licenseKey (normLicense n lic) = licenseKey lic := by
  unfold licenseKey normLicense
  by_cases h : lic.url.getD "" = ""
  · simp [h]
  · simp [h]

/-- Main induction for `dedup_licenses`: starting from a partial output
whose ids are `some 1 .. some n` and whose key table assigns each output
key its 1-based position, the final output appends the first
occurrences of the remaining keys, keeps ids sequential, and the final
key table still assigns 1-based positions. -/
lemma dedupLicAux_spec :
    ∀ (L out : List License) (res : List License × List ((String × String) × Int)),
      out.map (·.id) = (idRange out.length).map some →
      dedupLicAux L ((out.map licenseKey).enum.map (fun p => (p.2, (p.1 : Int) + 1))) out
        ((out.length : Int) + 1) = res →
      res.1.map licenseKey =
        out.map licenseKey ++ dedupFirstAux (out.map licenseKey) (L.map licenseKey) ∧
      res.1.map (·.id) = (idRange res.1.length).map some ∧
      res.2 = (res.1.map licenseKey).enum.map (fun p => (p.2, (p.1 : Int) + 1)) := by
  intro L
  induction L with
  | nil =>
    intro out res hid h
    cases h
    refine ⟨?_, ?_, ?_⟩ <;> simp [dedupLicAux, dedupFirstAux, hid]
  | cons lic rest ih =>
    intro out res hid h
    rw [dedupLicAux] at h
    have hkeys : ((out.map licenseKey).enum.map
        (fun p => (p.2, (p.1 : Int) + 1))).map (fun q => q.1) = out.map licenseKey := by
      rw [List.map_map]
      have he : ((fun q : (String × String) × Int => q.1) ∘
          (fun p : Nat × (String × String) => (p.2, (p.1 : Int) + 1))) = Prod.snd := rfl
      rw [he, List.enum_map_snd]
    by_cases hfound : (dictGet? ((out.map licenseKey).enum.map
        (fun p => (p.2, (p.1 : Int) + 1))) (licenseKey lic)).isSome = true
    · rw [if_pos hfound] at h
      have hcont : (out.map licenseKey).contains (licenseKey lic) = true := by
        rw [← hkeys, ← dictGet?_isSome_eq]
        exact hfound
      have hrhs : dedupFirstAux (out.map licenseKey)
          (licenseKey lic :: rest.map licenseKey) =
          dedupFirstAux (out.map licenseKey) (rest.map licenseKey) := by
        rw [dedupFirstAux, hcont]
        simp
      obtain ⟨k1, k2, k3⟩ := ih out res hid h
      refine ⟨?_, k2, k3⟩
      rw [k1, List.map_cons, hrhs]
    · rw [if_neg hfound] at h
      have hcont : (out.map licenseKey).contains (licenseKey lic) = false := by
        rw [← hkeys, ← dictGet?_isSome_eq]
        simpa using hfound
      have hid2 : (out ++ [normLicense ((out.length : Int) + 1) lic]).map (·.id) =
          (idRange (out ++ [normLicense ((out.length : Int) + 1) lic]).length).map some := by
        rw [List.map_append, hid, List.length_append]
        simp only [List.map_cons, List.map_nil, List.length_cons, List.length_nil]
        rw [idRange_succ]
        simp [normLicense]
      have hmap2 : ((out ++ [normLicense ((out.length : Int) + 1) lic]).map
            licenseKey).enum.map (fun p => (p.2, (p.1 : Int) + 1)) =
          ((out.map licenseKey).enum.map (fun p => (p.2, (p.1 : Int) + 1))) ++
            [(licenseKey lic, (out.length : Int) + 1)] := by
        rw [List.map_append, List.enum_append, List.map_append]
        congr 1
        simp [List.enumFrom, licenseKey_norm]
      have hlen2 : ((out ++ [normLicense ((out.length : Int) + 1) lic]).length : Int) + 1 =
          (out.length : Int) + 1 + 1 := by
        simp [List.length_append]
      have h2 : dedupLicAux rest
          (((out ++ [normLicense ((out.length : Int) + 1) lic]).map licenseKey).enum.map
            (fun p => (p.2, (p.1 : Int) + 1)))
          (out ++ [normLicense ((out.length : Int) + 1) lic])
          (((out ++ [normLicense ((out.length : Int) + 1) lic]).length : Int) + 1) = res := by
        rw [hmap2, hlen2]
        exact h
      have hrhs : dedupFirstAux (out.map licenseKey)
          (licenseKey lic :: rest.map licenseKey) =
          licenseKey lic ::
            dedupFirstAux (licenseKey lic :: out.map licenseKey) (rest.map licenseKey) := by
        rw [dedupFirstAux, hcont]
        simp
      obtain ⟨k1, k2, k3⟩ := ih _ res hid2 h2
      refine ⟨?_, k2, k3⟩
      rw [k1, List.map_cons, hrhs, List.map_append]
      simp only [List.map_cons, List.map_nil, licenseKey_norm]
      rw [List.append_assoc, List.singleton_append]
      congr 1
      congr 1
      apply dedupFirstAux_congr
      intro y
      rw [Bool.eq_iff_iff]
      simp [List.elem_iff, List.mem_append, List.mem_cons, or_comm]

/-- C6: licenses are deduplicated by `(name, url)` (url defaulting to
`""`): the output keeps the first occurrence of each key in scan order,
assigns ids `1..count` sequentially, and the key table maps every key,
so every later occurrence of a key maps to the id of its first
occurrence; `merge_datasets` publishes exactly this list for the
concatenated inputs; concretely, merging license sets
`[A u1, B u2]` and `[A u1, C u3]` yields three licenses `A, B, C` with
ids `1, 2, 3`. -/
theorem claim_C6 :
    (∀ L : List License,
      (dedup_licenses L).1.map licenseKey = dedupFirst (L.map licenseKey) ∧
      (dedup_licenses L).1.map (·.id) = (idRange (dedup_licenses L).1.length).map some ∧
      (dedup_licenses L).2 = ((dedup_licenses L).1.map licenseKey).enum.map
        (fun p => (p.2, (p.1 : Int) + 1)) ∧
      ∀ lic ∈ L, (dictGet? (dedup_licenses L).2 (licenseKey lic)).isSome = true) ∧
    (∀ (inputs : List MergeInput) (pm : String) (cp : Option (List String)) (abn dd : Bool)
       (m : Dataset),
      merge_datasets inputs pm cp abn dd = .ok m →
      m.licenses = (dedup_licenses (allLicenses (inputs.map (·.ds)))).1) ∧
    (merge_datasets
        [{ stem := "d1",
           ds := { licenses := [{ id := some 1, name := "A", url := some "u1" },
                                { id := some 2, name := "B", url := some "u2" }],
                   images := [], annotations := [],
                   categories := [{ id := 0, name := "x" }] } },
         { stem := "d2",
           ds := { licenses := [{ id := some 1, name := "A", url := some "u1" },
                                { id := some 2, name := "C", url := some "u3" }],
                   images := [], annotations := [],
                   categories := [{ id := 0, name := "x" }] } }] "none" none false false =
      .ok { licenses := [{ id := some 1, name := "A", url := some "u1" },
                         { id := some 2, name := "B", url := some "u2" },
                         { id := some 3, name := "C", url := some "u3" }],
            images := [], annotations := [],
            categories := [{ id := 0, name := "x" }] }) := by
  refine ⟨?_, ?_, by with_unfolding_all rfl⟩
  · intro L
    have h0 := dedupLicAux_spec L [] (dedup_licenses L) rfl rfl
    have hk1 : (dedup_licenses L).1.map licenseKey = dedupFirst (L.map licenseKey) := by
      simpa [dedupFirst] using h0.1
    refine ⟨hk1, h0.2.1, h0.2.2, ?_⟩
    intro lic hmem
    rw [h0.2.2, dictGet?_isSome_eq, List.map_map]
    have he : ((fun q : (String × String) × Int => q.1) ∘
        (fun p : Nat × (String × String) => (p.2, (p.1 : Int) + 1))) = Prod.snd := rfl
    rw [he, List.enum_map_snd, hk1]
    have h1 : licenseKey lic ∈ dedupFirst (L.map licenseKey) := by
      rcases dedupFirstAux_mem (L.map licenseKey) [] (licenseKey lic)
          (List.mem_map_of_mem _ hmem) with hin | hfalse
      · exact hin
      · simp [List.contains] at hfalse
    simpa [List.elem_iff] using h1
  · intro inputs pm cp abn dd m h
    obtain ⟨cat_maps, -, -, -, hlic, -⟩ := merge_datasets_ok_parts h
    exact hlic

/-- Witness for C6: a singleton license list, membership of its only
element in the key table, and the concrete two-dataset merge. -/
theorem claim_C6_witness :
    ((dedup_licenses [{ id := some 1, name := "A", url := some "u1" }]).1.map licenseKey =
      dedupFirst ([({ id := some 1, name := "A", url := some "u1" } : License)].map licenseKey)) ∧
    (dictGet? (dedup_licenses [{ id := some 1, name := "A", url := some "u1" }]).2
      (licenseKey { id := some 1, name := "A", url := some "u1" })).isSome = true ∧
    ({ licenses := [{ id := some 1, name := "A", url := some "u1" },
                    { id := some 2, name := "B", url := some "u2" },
                    { id := some 3, name := "C", url := some "u3" }],
       images := [], annotations := [],
       categories := [{ id := 0, name := "x" }] } : Dataset).licenses =
      (dedup_licenses (allLicenses (
        ([{ stem := "d1",
            ds := { licenses := [{ id := some 1, name := "A", url := some "u1" },
                                 { id := some 2, name := "B", url := some "u2" }],
                    images := [], annotations := [],
                    categories := [{ id := 0, name := "x" }] } },
          { stem := "d2",
            ds := { licenses := [{ id := some 1, name := "A", url := some "u1" },
                                 { id := some 2, name := "C", url := some "u3" }],
                    images := [], annotations := [],
                    categories := [{ id := 0, name := "x" }] } }] : List MergeInput).map (·.ds)))).1 :=
  ⟨(claim_C6.1 [{ id := some 1, name := "A", url := some "u1" }]).1,
   (claim_C6.1 [{ id := some 1, name := "A", url := some "u1" }]).2.2.2
     { id := some 1, name := "A", url := some "u1" } (by simp),
   claim_C6.2.1
     [{ stem := "d1",
        ds := { licenses := [{ id := some 1, name := "A", url := some "u1" },
                             { id := some 2, name := "B", url := some "u2" }],
                images := [], annotations := [],
                categories := [{ id := 0, name := "x" }] } },
      { stem := "d2",
        ds := { licenses := [{ id := some 1, name := "A", url := some "u1" },
                             { id := some 2, name := "C", url := some "u3" }],
                images := [], annotations := [],
                categories := [{ id := 0, name := "x" }] } }] "none" none false false
     { licenses := [{ id := some 1, name := "A", url := some "u1" },
                    { id := some 2, name := "B", url := some "u2" },
                    { id := some 3, name := "C", url := some "u3" }],
       images := [], annotations := [],
       categories := [{ id := 0, name := "x" }] }
     (by with_unfolding_all rfl)⟩

/-! ## C5: category alignment - infrastructure -/

lemma stableInsert_perm {α : Type} (le : α → α → Bool) (x : α) :
    ∀ l : List α, List.Perm (stableInsert le x l) (x :: l) := by
  intro l
  induction l with
  | nil => exact List.Perm.refl _
  | cons y ys ih =>
    unfold stableInsert
    by_cases h : le y x = true
    · rw [if_pos h]
      exact (ih.cons y).trans (List.Perm.swap x y ys)
    · rw [if_neg h]

lemma pySorted_perm_aux {α : Type} (le : α → α → Bool) :
    ∀ (l acc : List α),
      List.Perm (l.foldl (fun acc x => stableInsert le x acc) acc) (l ++ acc) := by
  intro l
  induction l with
  | nil => intro acc; exact List.Perm.refl _
  | cons x xs ih =>
    intro acc
    rw [List.foldl_cons]
    refine (ih (stableInsert le x acc)).trans ?_
    refine (List.Perm.append_left xs (stableInsert_perm le x acc)).trans ?_
    exact List.perm_middle

lemma pySorted_perm {α : Type} (le : α → α → Bool) (l : List α) :
    List.Perm (pySorted le l) l := by
  simpa using pySorted_perm_aux le l []

lemma categories_signature_length (cats : List Category) :
    (categories_signature cats).length = cats.length := by
  unfold categories_signature
  rw [(pySorted_perm _ _).length_eq, List.length_map]

lemma find?_map_overwrite {α β : Type} [BEq α] [LawfulBEq α] (k : α) (v : β) :
    ∀ l : List (α × β), l.any (fun p => p.1 == k) = true →
      (l.map (fun p => if p.1 == k then (k, v) else p)).find? (fun p => p.1 == k) =
        some (k, v) := by
  intro l
  induction l with
  | nil => intro h; simp at h
  | cons p t ih =>
    intro h
    by_cases hp : (p.1 == k) = true
    · simp [List.find?, hp]
    · have ht : t.any (fun q => q.1 == k) = true := by
        rcases List.any_eq_true.mp h with ⟨q, hq, hqk⟩
        rcases List.mem_cons.mp hq with rfl | hq2
        · exact absurd hqk hp
        · exact List.any_eq_true.mpr ⟨q, hq2, hqk⟩
      simp [List.find?, hp, ih ht]

lemma find?_map_ne {α β : Type} [BEq α] [LawfulBEq α] (k k' : α) (v : β) (h : k' ≠ k) :
    ∀ t : List (α × β),
      (t.map (fun p => if p.1 == k then (k, v) else p)).find? (fun p => p.1 == k') =
        t.find? (fun p => p.1 == k') := by
  intro t
  induction t with
  | nil => rfl
  | cons p t2 ih =>
    by_cases hp : (p.1 == k) = true
    · have hpk : p.1 = k := by rwa [beq_iff_eq] at hp
      have h1 : ((k, v).1 == k') = false := by
        rw [beq_eq_false_iff_ne]
        exact fun e => h e.symm
      have h2 : (p.1 == k') = false := by
        rw [beq_eq_false_iff_ne, hpk]
        exact fun e => h e.symm
      simp [List.find?, hp, h1, h2, ih]
    · simp only [List.map_cons, if_neg hp]
      cases hpk2 : (p.1 == k') with
      | true => simp [List.find?, hpk2]
      | false => simp [List.find?, hpk2, ih]

lemma dictGet?_insert_self {α β : Type} [BEq α] [LawfulBEq α]
    (l : List (α × β)) (k : α) (v : β) :
    dictGet? (dictInsert l k v) k = some v := by
  unfold dictInsert
  by_cases hany : l.any (fun p => p.1 == k) = true
  · rw [if_pos hany]
    unfold dictGet?
    rw [find?_map_overwrite k v l hany]
    rfl
  · rw [if_neg hany]
    unfold dictGet?
    rw [List.find?_append]
    have hnone : l.find? (fun p => p.1 == k) = none := by
      rw [List.find?_eq_none]
      intro p hp hpk
      exact hany (List.any_eq_true.mpr ⟨p, hp, hpk⟩)
    simp [hnone, List.find?]

lemma dictGet?_insert_ne {α β : Type} [BEq α] [LawfulBEq α]
    (l : List (α × β)) (k k' : α) (v : β) (h : k' ≠ k) :
    dictGet? (dictInsert l k v) k' = dictGet? l k' := by
  unfold dictInsert
  by_cases hany : l.any (fun p => p.1 == k) = true
  · rw [if_pos hany]
    unfold dictGet?
    rw [find?_map_ne k k' v h l]
  · rw [if_neg hany]
    unfold dictGet?
    rw [List.find?_append]
    have h1 : ([(k, v)].find? (fun p => p.1 == k')) = none := by
      have h2 : ((k, v).1 == k') = false := by
        rw [beq_eq_false_iff_ne]
        exact fun e => h e.symm
      simp [List.find?, h2]
    cases hf : l.find? (fun p => p.1 == k') <;> simp [hf, h1]

/-- Looking up a key after folding inserts: the last occurrence in the
inserted list wins, else the original table value. -/
lemma fold_insert_get {α β : Type} [BEq α] [LawfulBEq α] :
    ∀ (E acc : List (α × β)) (k : α),
      dictGet? (E.foldl (fun a p => dictInsert a p.1 p.2) acc) k =
        (match (E.reverse).find? (fun p => p.1 == k) with
          | some p => some p.2
          | none => dictGet? acc k) := by
  intro E
  induction E with
  | nil => intro acc k; rfl
  | cons p E2 ih =>
    intro acc k
    rw [List.foldl_cons, ih, List.reverse_cons, List.find?_append]
    cases hf : E2.reverse.find? (fun q => q.1 == k) with
    | some q => simp [hf]
    | none =>
      simp only [hf, Option.none_or]
      by_cases hp : (p.1 == k) = true
      · have hpk : p.1 = k := by rwa [beq_iff_eq] at hp
        simp only [List.find?, hp]
        rw [← hpk]
        exact dictGet?_insert_self acc p.1 p.2
      · have hpk : k ≠ p.1 := fun e => hp (by rw [beq_iff_eq]; exact e.symm)
        simp only [List.find?, hp]
        exact dictGet?_insert_ne acc p.1 k p.2 hpk

lemma buildfold_eq_filterMap (m1 m2 : String → Option Int) :
    ∀ (names : List String) (acc : List (Int × Int)),
      names.foldl (fun a n => match m1 n, m2 n with
        | some k, some v => dictInsert a k v
        | _, _ => a) acc =
      (names.filterMap (fun n => match m1 n, m2 n with
        | some k, some v => some (k, v)
        | _, _ => none)).foldl (fun a p => dictInsert a p.1 p.2) acc := by
  intro names
  induction names with
  | nil => intro acc; rfl
  | cons n t ih =>
    intro acc
    rw [List.foldl_cons, List.filterMap_cons]
    cases h1 : m1 n <;> cases h2 : m2 n <;> simp [h1, h2, ih]

lemma dedupFirstAux_of_nodup {α : Type} [BEq α] [LawfulBEq α] :
    ∀ (l seen : List α), l.Nodup → (∀ x ∈ l, seen.contains x = false) →
      dedupFirstAux seen l = l := by
  intro l
  induction l with
  | nil => intro seen _ _; rfl
  | cons x xs ih =>
    intro seen hnd hseen
    unfold dedupFirstAux
    rw [hseen x (List.mem_cons_self _ _)]
    simp only [Bool.false_eq_true, if_false]
    congr 1
    refine ih (x :: seen) (List.Nodup.of_cons hnd) ?_
    intro y hy
    rw [List.contains_cons]
    have hyx : (y == x) = false := by
      rw [beq_eq_false_iff_ne]
      intro e
      subst e
      exact (List.nodup_cons.mp hnd).1 hy
    rw [hyx, hseen y (List.mem_cons_of_mem _ hy)]
    rfl

lemma mapM_ok_get {α β : Type} {f : α → Except String β} :
    ∀ {l : List α} {out : List β}, l.mapM f = .ok out →
      out.length = l.length ∧
      ∀ i x, l.get? i = some x → ∃ y, f x = .ok y ∧ out.get? i = some y := by
  intro l
  induction l with
  | nil =>
    intro out h
    rw [List.mapM_nil] at h
    cases h
    exact ⟨rfl, by intro i x hx; simp at hx⟩
  | cons a t ih =>
    intro out h
    rw [List.mapM_cons] at h
    cases hfa : f a with
    | error e =>
      rw [hfa] at h
      exact absurd h (by simp [Bind.bind, Except.bind])
    | ok y =>
      rw [hfa] at h
      have h2 : (t.mapM f >>= fun ys => pure (y :: ys) : Except String (List β)) = .ok out := h
      cases hmt : t.mapM f with
      | error e =>
        rw [hmt] at h2
        exact absurd h2 (by simp [Bind.bind, Except.bind])
      | ok ys =>
        rw [hmt] at h2
        have h3 : Except.ok (y :: ys) = Except.ok out := h2
        injection h3 with h3
        subst h3
        obtain ⟨hl, hget⟩ := ih hmt
        refine ⟨by simp [hl], ?_⟩
        intro i x hx
        cases i with
        | zero =>
          simp only [List.get?_cons_zero, Option.some.injEq] at hx
          subst hx
          exact ⟨y, hfa, rfl⟩
        | succ n =>
          rw [List.get?_cons_succ] at hx
          exact hget n x hx

lemma mapM_ok_of_forall {α β : Type} {f : α → Except String β} :
    ∀ (l : List α), (∀ x ∈ l, ∃ y, f x = .ok y) → ∃ out, l.mapM f = .ok out := by
  intro l
  induction l with
  | nil => intro _; exact ⟨[], rfl⟩
  | cons a t ih =>
    intro h
    obtain ⟨y, hy⟩ := h a (List.mem_cons_self _ _)
    obtain ⟨ys, hys⟩ := ih (fun x hx => h x (List.mem_cons_of_mem _ hx))
    refine ⟨y :: ys, ?_⟩
    rw [List.mapM_cons, hy, hys]
    rfl

/-- With duplicate-free names, the name dict maps each category's name
to its own id. -/
lemma nameMap_self (dsCats : List Category) (c : Category) (hc : c ∈ dsCats)
    (hnames : (dsCats.map (·.name)).Nodup) :
    categoriesNameMap dsCats c.name = some c.id := by
  unfold categoriesNameMap
  cases hf : dsCats.reverse.find? (fun x => x.name == c.name) with
  | none =>
    rw [List.find?_eq_none] at hf
    exact absurd (by simp) (hf c (List.mem_reverse.mpr hc))
  | some y =>
    have hy := List.find?_some hf
    have hymem : y ∈ dsCats := List.mem_reverse.mp (List.mem_of_find?_eq_some hf)
    have hyc : y = c := by
      refine List.inj_on_of_nodup_map hnames hymem hc ?_
      rwa [beq_iff_eq] at hy
    subst hyc
    rfl

lemma nameMap_mem (cats : List Category) (n : String) (v : Int)
    (h : categoriesNameMap cats n = some v) : v ∈ cats.map (·.id) := by
  unfold categoriesNameMap at h
  cases hf : cats.reverse.find? (fun x => x.name == n) with
  | none => rw [hf] at h; cases h
  | some y =>
    rw [hf] at h
    injection h with h
    subst h
    exact List.mem_map_of_mem _ (List.mem_reverse.mp (List.mem_of_find?_eq_some hf))

lemma nameMap_isSome_of_mem (cats : List Category) (n : String)
    (h : n ∈ cats.map (·.name)) : ∃ v, categoriesNameMap cats n = some v := by
  obtain ⟨c, hc, rfl⟩ := List.mem_map.mp h
  unfold categoriesNameMap
  cases hf : cats.reverse.find? (fun x => x.name == c.name) with
  | none =>
    rw [List.find?_eq_none] at hf
    exact absurd (by simp) (hf c (List.mem_reverse.mpr hc))
  | some y => exact ⟨y.id, rfl⟩

/-- The align-branch id-map looks up each category's id to the
canonical dataset's id for its name (when the canonical dataset has
that name, else nothing). -/
lemma buildAlign_lookup (dsCats firstCats : List Category) (c : Category)
    (hc : c ∈ dsCats) (hnames : (dsCats.map (·.name)).Nodup)
    (hids : (dsCats.map (·.id)).Nodup) :
    dictGet? (buildAlignMap dsCats firstCats) c.id = categoriesNameMap firstCats c.name := by
  unfold buildAlignMap
  rw [show dedupFirst (dsCats.map (·.name)) = dsCats.map (·.name) from
    dedupFirstAux_of_nodup _ [] hnames (fun x _ => rfl)]
  rw [buildfold_eq_filterMap (categoriesNameMap dsCats) (categoriesNameMap firstCats),
    fold_insert_get]
  have hmemE : ∀ q, q ∈ (dsCats.map (·.name)).filterMap
      (fun n => match categoriesNameMap dsCats n, categoriesNameMap firstCats n with
        | some k, some v => some (k, v)
        | _, _ => none) →
      ∃ c2, c2 ∈ dsCats ∧ q.1 = c2.id ∧
        categoriesNameMap firstCats c2.name = some q.2 := by
    intro q hq
    obtain ⟨n, hn, hmatch⟩ := List.mem_filterMap.mp hq
    obtain ⟨c2, hc2, rfl⟩ := List.mem_map.mp hn
    rw [nameMap_self dsCats c2 hc2 hnames] at hmatch
    cases hm2 : categoriesNameMap firstCats c2.name with
    | none => rw [hm2] at hmatch; cases hmatch
    | some v =>
      rw [hm2] at hmatch
      injection hmatch with hmatch
      subst hmatch
      exact ⟨c2, hc2, rfl, hm2⟩
  cases hcm : categoriesNameMap firstCats c.name with
  | some v =>
    cases hfind : ((dsCats.map (·.name)).filterMap
        (fun n => match categoriesNameMap dsCats n, categoriesNameMap firstCats n with
          | some k, some v => some (k, v)
          | _, _ => none)).reverse.find? (fun p => p.1 == c.id) with
    | none =>
      exfalso
      rw [List.find?_eq_none] at hfind
      refine hfind (c.id, v) ?_ (by simp)
      rw [List.mem_reverse]
      refine List.mem_filterMap.mpr ⟨c.name, List.mem_map_of_mem _ hc, ?_⟩
      rw [nameMap_self dsCats c hc hnames, hcm]
    | some q =>
      have hqmem := List.mem_reverse.mp (List.mem_of_find?_eq_some hfind)
      have hqpred := List.find?_some hfind
      obtain ⟨c2, hc2, hq1, hq2⟩ := hmemE q hqmem
      have hqc : q.1 = c.id := by rwa [beq_iff_eq] at hqpred
      have hc2c : c2 = c := by
        refine List.inj_on_of_nodup_map hids hc2 hc ?_
        rw [← hq1, hqc]
      subst hc2c
      rw [hcm] at hq2
      injection hq2 with hq2
      simp [hq2]
  | none =>
    cases hfind : ((dsCats.map (·.name)).filterMap
        (fun n => match categoriesNameMap dsCats n, categoriesNameMap firstCats n with
          | some k, some v => some (k, v)
          | _, _ => none)).reverse.find? (fun p => p.1 == c.id) with
    | none => rfl
    | some q =>
      exfalso
      have hqmem := List.mem_reverse.mp (List.mem_of_find?_eq_some hfind)
      have hqpred := List.find?_some hfind
      obtain ⟨c2, hc2, hq1, hq2⟩ := hmemE q hqmem
      have hqc : q.1 = c.id := by rwa [beq_iff_eq] at hqpred
      have hc2c : c2 = c := by
        refine List.inj_on_of_nodup_map hids hc2 hc ?_
        rw [← hq1, hqc]
      subst hc2c
      rw [hcm] at hq2
      cases hq2

/-- The signature-match branch's id-map sends every category id of the
dataset to itself. -/
lemma identCatMap_get (cats : List Category) (k : Int) (hk : k ∈ cats.map (·.id)) :
    dictGet? (identCatMap cats) k = some k := by
  have hconv : identCatMap cats =
      (cats.map (fun c => (c.id, c.id))).foldl (fun a p => dictInsert a p.1 p.2) [] := by
    unfold identCatMap
    rw [List.foldl_map]
  rw [hconv, fold_insert_get]
  cases hfind : ((cats.map (fun c => (c.id, c.id))).reverse).find? (fun p => p.1 == k) with
  | none =>
    exfalso
    obtain ⟨c, hc, rfl⟩ := List.mem_map.mp hk
    rw [List.find?_eq_none] at hfind
    refine hfind (c.id, c.id) ?_ (by simp)
    rw [List.mem_reverse]
    exact List.mem_map_of_mem _ hc
  | some q =>
    have hqmem := List.mem_reverse.mp (List.mem_of_find?_eq_some hfind)
    have hqpred := List.find?_some hfind
    obtain ⟨c2, -, rfl⟩ := List.mem_map.mp hqmem
    have : c2.id = k := by rwa [beq_iff_eq] at hqpred
    simp [this]

/-! ## C5: the claim -/

/-- C5: signature match gives the identity id-map; a mismatch with
alignment disabled makes the merge fail; with alignment enabled the
merge succeeds exactly when every dataset matches the signature or has
the same name set, and the align map sends a category's id to the
canonical id of its name; concretely, `{0:cat,1:dog}` merged with
`{0:dog,1:cat}` remaps the second dataset's `category_id 0` annotation
to `category_id 1`. -/
theorem claim_C5 :
    (∀ (first : Dataset) (rest : List Dataset) (abn : Bool)
       (maps : List (List (Int × Int))) (i : Nat) (ds : Dataset),
      computeCatMaps (first :: rest) abn = .ok maps →
      (first :: rest).get? i = some ds →
      categories_signature ds.categories = categories_signature first.categories →
      maps.get? i = some (identCatMap ds.categories)) ∧
    (∀ (first : MergeInput) (rest : List MergeInput) (pm : String)
       (cp : Option (List String)) (dd : Bool) (i : Nat) (inp : MergeInput),
      (first :: rest).get? i = some inp →
      categories_signature inp.ds.categories ≠ categories_signature first.ds.categories →
      ∃ e, merge_datasets (first :: rest) pm cp false dd = .error e) ∧
    (∀ (first : MergeInput) (rest : List MergeInput) (pm : String)
       (cp : Option (List String)) (dd : Bool),
      (pm = "custom" && ((cp.getD []).isEmpty ||
        (cp.getD []).length != (first :: rest).length)) = false →
      (∀ inp ∈ first :: rest, inp.ds.categories ≠ []) →
      ((∃ m, merge_datasets (first :: rest) pm cp true dd = .ok m) ↔
        ∀ inp ∈ first :: rest,
          categories_signature inp.ds.categories =
            categories_signature first.ds.categories ∨
          sameSet (inp.ds.categories.map (·.name))
            (first.ds.categories.map (·.name)) = true)) ∧
    (∀ (dsCats firstCats : List Category) (c : Category),
      c ∈ dsCats → (dsCats.map (·.name)).Nodup → (dsCats.map (·.id)).Nodup →
      dictGet? (buildAlignMap dsCats firstCats) c.id =
        categoriesNameMap firstCats c.name) ∧
    (merge_datasets
        [{ stem := "d1",
           ds := { licenses := [],
                   images := [{ id := 1, file_name := "a.jpg", width := some 10, height := some 10 }],
                   annotations := [{ id := 1, image_id := 1, category_id := 0, bbox := (1, 1, 2, 2), area := 4 }],
                   categories := [{ id := 0, name := "cat" }, { id := 1, name := "dog" }] } },
         { stem := "d2",
           ds := { licenses := [],
                   images := [{ id := 1, file_name := "b.jpg", width := some 10, height := some 10 }],
                   annotations := [{ id := 1, image_id := 1, category_id := 0, bbox := (1, 1, 2, 2), area := 4 }],
                   categories := [{ id := 0, name := "dog" }, { id := 1, name := "cat" }] } }]
        "none" none true false =
      .ok { licenses := [],
            images := [{ id := 1, file_name := "a.jpg", width := some 10, height := some 10 },
                       { id := 2, file_name := "b.jpg", width := some 10, height := some 10 }],
            annotations := [{ id := 1, image_id := 1, category_id := 0, bbox := (1, 1, 2, 2), area := 4 },
                            { id := 2, image_id := 2, category_id := 1, bbox := (1, 1, 2, 2), area := 4 }],
            categories := [{ id := 0, name := "cat" }, { id := 1, name := "dog" }] }) := by
  refine ⟨?_, ?_, ?_, ?_, by with_unfolding_all rfl⟩
  · -- (i) identity branch
    intro first rest abn maps i ds h hget hsig
    simp only [computeCatMaps] at h
    by_cases hfc : first.categories.isEmpty = true
    · rw [if_pos hfc] at h
      cases h
    · rw [if_neg hfc] at h
      obtain ⟨-, hall⟩ := mapM_ok_get h
      obtain ⟨y, hy, hout⟩ := hall i ds hget
      have hdsne : ¬(ds.categories.isEmpty = true) := by
        intro hde
        rw [List.isEmpty_iff] at hde
        rw [hde] at hsig
        have hlen := congrArg List.length hsig
        rw [categories_signature_length, categories_signature_length] at hlen
        simp at hlen
        rw [List.isEmpty_iff] at hfc
        exact hfc (List.length_eq_zero.mp hlen.symm)
      unfold catMapOne at hy
      rw [if_neg hdsne, if_pos hsig] at hy
      injection hy with hy
      subst hy
      exact hout
  · -- (ii) mismatch, alignment disabled
    intro first rest pm cp dd i inp hget hsig
    unfold merge_datasets
    by_cases hg : (pm = "custom" && ((cp.getD []).isEmpty ||
        (cp.getD []).length != (first :: rest).length)) = true
    · rw [if_pos hg]
      exact ⟨_, rfl⟩
    · rw [if_neg hg]
      cases hcm : computeCatMaps ((first :: rest).map (·.ds)) false with
      | error e =>
        exact ⟨e, rfl⟩
      | ok maps =>
        exfalso
        simp only [computeCatMaps, List.map_cons] at hcm
        by_cases hfc : first.ds.categories.isEmpty = true
        · rw [if_pos hfc] at hcm
          cases hcm
        · rw [if_neg hfc] at hcm
          obtain ⟨-, hall⟩ := mapM_ok_get hcm
          obtain ⟨y, hy, -⟩ := hall i inp.ds (by
            rw [← List.map_cons, List.get?_map, hget]
            rfl)
          unfold catMapOne at hy
          by_cases hde : inp.ds.categories.isEmpty = true
          · rw [if_pos hde] at hy
            cases hy
          · rw [if_neg hde, if_neg hsig] at hy
            simp at hy
  · -- (iii) alignment enabled: success iff every dataset matches or aligns
    intro first rest pm cp dd hg hne
    constructor
    · rintro ⟨m, hm⟩ inp hinp
      obtain ⟨cat_maps, hcm, -, -, -, -⟩ := merge_datasets_ok_parts hm
      simp only [computeCatMaps, List.map_cons] at hcm
      by_cases hfc : first.ds.categories.isEmpty = true
      · rw [if_pos hfc] at hcm
        cases hcm
      · rw [if_neg hfc] at hcm
        obtain ⟨-, hall⟩ := mapM_ok_get hcm
        obtain ⟨i, hi⟩ := List.mem_iff_get?.mp hinp
        obtain ⟨y, hy, -⟩ := hall i inp.ds (by
          rw [← List.map_cons, List.get?_map, hi]
          rfl)
        unfold catMapOne at hy
        by_cases hsig : categories_signature inp.ds.categories =
            categories_signature first.ds.categories
        · exact Or.inl hsig
        · have hde : ¬(inp.ds.categories.isEmpty = true) := by
            rw [List.isEmpty_iff]
            exact hne inp hinp
          rw [if_neg hde, if_neg hsig] at hy
          cases hss : sameSet (inp.ds.categories.map (·.name))
              (first.ds.categories.map (·.name)) with
          | true => exact Or.inr rfl
          | false =>
            rw [hss] at hy
            simp at hy
    · intro hall
      have hfc : ¬(first.ds.categories.isEmpty = true) := by
        rw [List.isEmpty_iff]
        exact hne first (List.mem_cons_self _ _)
      have hmapsok : ∃ maps, (first.ds :: rest.map (·.ds)).mapM
          (catMapOne first.ds.categories true) = .ok maps := by
        apply mapM_ok_of_forall
        intro x hx
        have hx2 : ∃ inp ∈ first :: rest, inp.ds = x := by
          rcases List.mem_cons.mp hx with rfl | hx3
          · exact ⟨first, List.mem_cons_self _ _, rfl⟩
          · obtain ⟨inp, hinp, rfl⟩ := List.mem_map.mp hx3
            exact ⟨inp, List.mem_cons_of_mem _ hinp, rfl⟩
        obtain ⟨inp, hinp, rfl⟩ := hx2
        have hde : ¬(inp.ds.categories.isEmpty = true) := by
          rw [List.isEmpty_iff]
          exact hne inp hinp
        unfold catMapOne
        rw [if_neg hde]
        by_cases hsig : categories_signature inp.ds.categories =
            categories_signature first.ds.categories
        · rw [if_pos hsig]
          exact ⟨_, rfl⟩
        · rw [if_neg hsig]
          rcases hall inp hinp with h | h
          · exact absurd h hsig
          · rw [h]
            exact ⟨_, rfl⟩
      obtain ⟨maps, hmaps⟩ := hmapsok
      unfold merge_datasets
      simp only [hg, Bool.false_eq_true, if_false]
      have hcm : computeCatMaps ((first :: rest).map (·.ds)) true = .ok maps := by
        simp only [computeCatMaps, List.map_cons]
        rw [if_neg hfc]
        exact hmaps
      rw [hcm]
      exact ⟨_, rfl⟩
  · -- (iv) align map routes ids through names
    intro dsCats firstCats c hc hnames hids
    exact buildAlign_lookup dsCats firstCats c hc hnames hids

/-! ## C3: referential integrity -/

lemma count_one_of_mem_nodup {α : Type} (l : List α) (f : α → Int) (b : Int)
    (hnd : (l.map f).Nodup) (hmem : b ∈ l.map f) :
    (l.filter (fun x => f x == b)).length = 1 := by
  have h1 : (l.map f).count b = 1 := List.count_eq_one_of_mem hnd hmem
  calc (l.filter (fun x => f x == b)).length
      = l.countP (fun x => f x == b) := (List.countP_eq_length_filter _ _).symm
    _ = (l.map f).countP (fun y => y == b) := by rw [List.countP_map]; rfl
    _ = (l.map f).count b := rfl
    _ = 1 := h1

lemma idRange_nodup (n : Nat) : (idRange n).Nodup := by
  unfold idRange
  refine List.Nodup.map ?_ (List.nodup_range n)
  intro a b h
  dsimp only at h
  omega

lemma mem_zip_get {α β : Type} : ∀ {xs : List α} {ys : List β} {p : α × β},
    p ∈ xs.zip ys → ∃ i, xs.get? i = some p.1 ∧ ys.get? i = some p.2 := by
  intro xs
  induction xs with
  | nil => intro ys p h; simp [List.zip] at h
  | cons x xt ih =>
    intro ys p h
    cases ys with
    | nil => simp [List.zip] at h
    | cons y yt =>
      rw [List.zip_cons_cons] at h
      rcases List.mem_cons.mp h with hEq | h2
      · subst hEq; exact ⟨0, rfl, rfl⟩
      · obtain ⟨i, h1, h2x⟩ := ih h2
        exact ⟨i + 1, h1, h2x⟩

lemma mem_setAdd_of_mem {l : List Int} {x : Int} (y : Int) (h : x ∈ l) : x ∈ setAdd l y := by
  unfold setAdd
  by_cases hc : l.contains y = true
  · rw [if_pos hc]; exact h
  · rw [if_neg hc]; exact List.mem_append_left _ h

lemma self_mem_setAdd (l : List Int) (y : Int) : y ∈ setAdd l y := by
  unfold setAdd
  by_cases hc : l.contains y = true
  · rw [if_pos hc]; exact List.elem_iff.mp hc
  · rw [if_neg hc]; exact List.mem_append_right _ (List.mem_singleton_self y)

lemma setAdd_nodup (l : List Int) (y : Int) (h : l.Nodup) : (setAdd l y).Nodup := by
  unfold setAdd
  by_cases hc : l.contains y = true
  · rw [if_pos hc]; exact h
  · rw [if_neg hc]
    rw [List.nodup_append]
    exact ⟨h, List.nodup_singleton y,
      List.disjoint_singleton.mpr (fun hm => hc (List.elem_iff.mpr hm))⟩

lemma foldl_setAdd_superset (l : List Int) :
    ∀ (s : List Int) (x : Int), x ∈ s → x ∈ l.foldl setAdd s := by
  induction l with
  | nil => intro s x h; exact h
  | cons a t ih =>
    intro s x h
    rw [List.foldl_cons]
    exact ih _ x (mem_setAdd_of_mem a h)

lemma mem_foldl_setAdd (l : List Int) :
    ∀ (s : List Int) (x : Int), x ∈ l → x ∈ l.foldl setAdd s := by
  induction l with
  | nil => intro s x h; cases h
  | cons a t ih =>
    intro s x h
    rw [List.foldl_cons]
    rcases List.mem_cons.mp h with hEq | h2
    · subst hEq; exact foldl_setAdd_superset t _ x (self_mem_setAdd s x)
    · exact ih _ x h2

lemma foldl_setAdd_nodup (l : List Int) :
    ∀ s : List Int, s.Nodup → (l.foldl setAdd s).Nodup := by
  induction l with
  | nil => intro s h; exact h
  | cons a t ih =>
    intro s h
    rw [List.foldl_cons]
    exact ih _ (setAdd_nodup s a h)

lemma sameSet_mem {α : Type} [BEq α] [LawfulBEq α] {l1 l2 : List α}
    (h : sameSet l1 l2 = true) {x : α} (hx : x ∈ l1) : x ∈ l2 := by
  unfold sameSet at h
  rw [Bool.and_eq_true] at h
  have h2 := List.all_eq_true.mp h.1 x hx
  exact List.elem_iff.mp h2

/-- One conversion step preserves the referential invariants: every
accumulated annotation points at an accumulated image id and a seen
class id, and the seen set stays duplicate-free. -/
lemma processYoloImage_refs {sizes : String → Option (Int × Int)} {br : Option Int}
    {st st' : ConvState} {img : YoloImg}
    (h : processYoloImage sizes br st img = .ok st')
    (hI : ∀ a ∈ st.annotations, a.image_id ∈ st.images.map (·.id))
    (hC : ∀ a ∈ st.annotations, a.category_id ∈ st.seen_class_ids)
    (hN : st.seen_class_ids.Nodup) :
    (∀ a ∈ st'.annotations, a.image_id ∈ st'.images.map (·.id)) ∧
    (∀ a ∈ st'.annotations, a.category_id ∈ st'.seen_class_ids) ∧
    st'.seen_class_ids.Nodup := by
  unfold processYoloImage at h
  cases hs : sizeFor sizes img with
  | none => rw [hs] at h; cases h
  | some wh =>
    obtain ⟨w, ht⟩ := wh
    rw [hs] at h
    injection h with h
    subst h
    dsimp only
    refine ⟨?_, ?_, foldl_setAdd_nodup _ _ hN⟩
    · intro a ha
      rw [List.map_append]
      rcases List.mem_append.mp ha with h1 | h2
      · exact List.mem_append_left _ (hI a h1)
      · obtain ⟨i, b, hb, hEq⟩ := mem_mapIdx h2
        subst hEq
        exact List.mem_append_right _ (List.mem_singleton_self st.img_id)
    · intro a ha
      rcases List.mem_append.mp ha with h1 | h2
      · exact foldl_setAdd_superset _ _ _ (hC a h1)
      · obtain ⟨i, b, hb, hEq⟩ := mem_mapIdx h2
        subst hEq
        exact mem_foldl_setAdd _ _ _ (List.mem_map_of_mem _ hb)

/-- A successful `yolo_to_coco` run: the final loop state with the
referential invariants established. -/
lemma conv_ok_st {classes : List String} {sizes : String → Option (Int × Int)}
    {br : Option Int} {imgs : List YoloImg} {d : CocoOut}
    (h : yolo_to_coco classes sizes br imgs = .ok d) :
    ∃ st : ConvState,
      d.images = st.images ∧ d.annotations = st.annotations ∧
      d.categories = (if classes.isEmpty then
          (pySorted (fun a b => decide (a ≤ b)) st.seen_class_ids).map
            (fun cid => { id := cid, name := "class_" ++ toString cid })
        else classes.enum.map (fun p => { id := (p.1 : Int), name := p.2 })) ∧
      (∀ a ∈ st.annotations, a.image_id ∈ st.images.map (·.id)) ∧
      (∀ a ∈ st.annotations, a.category_id ∈ st.seen_class_ids) ∧
      st.seen_class_ids.Nodup := by
  obtain ⟨st, hf, hi, ha, hc⟩ := yolo_to_coco_ok_fold h
  have key := foldlM_ok_inv (P := fun s : ConvState =>
      (∀ a ∈ s.annotations, a.image_id ∈ s.images.map (·.id)) ∧
      (∀ a ∈ s.annotations, a.category_id ∈ s.seen_class_ids) ∧
      s.seen_class_ids.Nodup)
    imgs
    { img_id := 1, ann_id := 1, images := [], annotations := [], seen_class_ids := [] } st
    (fun s a s' _ hP hstep => processYoloImage_refs hstep hP.1 hP.2.1 hP.2.2)
    ⟨fun a ha0 => absurd ha0 (List.not_mem_nil a),
     fun a ha0 => absurd ha0 (List.not_mem_nil a), List.nodup_nil⟩ hf
  exact ⟨st, hi, ha, hc, key.1, key.2.1, key.2.2⟩

/-- One merge-loop step preserves "annotations point at accumulated
image ids". -/
lemma processImage_imgrefs (dd : Bool) (pfx : String) (lm cm : List (Int × Int))
    (anns : List Annotation) (st : MergeState) (img : Image)
    (hP : ∀ a ∈ st.annotations, a.image_id ∈ st.images.map (·.id)) :
    ∀ a ∈ (processImage dd pfx lm cm anns st img).annotations,
      a.image_id ∈ (processImage dd pfx lm cm anns st img).images.map (·.id) := by
  unfold processImage
  by_cases hskip : (dd && st.seen_filenames.contains (pfx ++ img.file_name)) = true
  · rw [if_pos hskip]; exact hP
  · rw [if_neg hskip]
    dsimp only
    intro a ha
    rw [List.map_append]
    rcases List.mem_append.mp ha with h1 | h2
    · exact List.mem_append_left _ (hP a h1)
    · obtain ⟨i, b, hb, hEq⟩ := mem_mapIdx h2
      subst hEq
      exact List.mem_append_right _ (List.mem_singleton_self st.next_img_id)

lemma processDataset_imgrefs (dd : Bool) (pfx : String) (lm cm : List (Int × Int))
    (ds : Dataset) (st : MergeState)
    (hP : ∀ a ∈ st.annotations, a.image_id ∈ st.images.map (·.id)) :
    ∀ a ∈ (processDataset dd pfx lm cm ds st).annotations,
      a.image_id ∈ (processDataset dd pfx lm cm ds st).images.map (·.id) := by
  unfold processDataset
  refine List.foldlRecOn (motive := fun s : MergeState =>
      ∀ a ∈ s.annotations, a.image_id ∈ s.images.map (·.id))
    ds.images (processImage dd pfx lm cm ds.annotations) st hP ?_
  intro b hb a _
  exact processImage_imgrefs dd pfx lm cm ds.annotations b a hb

lemma mergeFold_imgrefs (dd : Bool) (pm : String) (cp : Option (List String))
    (km : List ((String × String) × Int)) (inputs : List MergeInput)
    (cat_maps : List (List (Int × Int))) :
    ∀ a ∈ (mergeFold dd pm cp km inputs cat_maps).annotations,
      a.image_id ∈ (mergeFold dd pm cp km inputs cat_maps).images.map (·.id) := by
  unfold mergeFold
  refine List.foldlRecOn (motive := fun s : MergeState =>
      ∀ a ∈ s.annotations, a.image_id ∈ s.images.map (·.id))
    _ _ _ ?_ ?_
  · intro a ha0
    exact absurd ha0 (List.not_mem_nil a)
  · intro b hb p _
    exact processDataset_imgrefs dd (prefixFor pm cp p.2.1.stem p.1)
      (buildLicMap km p.2.1.ds.licenses) p.2.2 p.2.1.ds b hb

/-- One merge-loop step keeps every accumulated annotation's category
id inside `S`, provided the dataset's annotations all remap into `S`. -/
lemma processImage_cats (dd : Bool) (pfx : String) (lm cm : List (Int × Int))
    (anns : List Annotation) (st : MergeState) (img : Image) (S : List Int)
    (hanns : ∀ a ∈ anns, ∃ v, dictGet? cm a.category_id = some v ∧ v ∈ S)
    (hP : ∀ a ∈ st.annotations, a.category_id ∈ S) :
    ∀ a ∈ (processImage dd pfx lm cm anns st img).annotations, a.category_id ∈ S := by
  unfold processImage
  by_cases hskip : (dd && st.seen_filenames.contains (pfx ++ img.file_name)) = true
  · rw [if_pos hskip]; exact hP
  · rw [if_neg hskip]
    dsimp only
    intro a ha
    rcases List.mem_append.mp ha with h1 | h2
    · exact hP a h1
    · obtain ⟨i, b, hb, hEq⟩ := mem_mapIdx h2
      subst hEq
      obtain ⟨v, hv, hvS⟩ := hanns b (List.mem_of_mem_filter hb)
      show (dictGet? cm b.category_id).getD b.category_id ∈ S
      rw [hv]
      exact hvS

lemma processDataset_cats (dd : Bool) (pfx : String) (lm cm : List (Int × Int))
    (ds : Dataset) (st : MergeState) (S : List Int)
    (hanns : ∀ a ∈ ds.annotations, ∃ v, dictGet? cm a.category_id = some v ∧ v ∈ S)
    (hP : ∀ a ∈ st.annotations, a.category_id ∈ S) :
    ∀ a ∈ (processDataset dd pfx lm cm ds st).annotations, a.category_id ∈ S := by
  unfold processDataset
  refine List.foldlRecOn (motive := fun s : MergeState =>
      ∀ a ∈ s.annotations, a.category_id ∈ S)
    ds.images (processImage dd pfx lm cm ds.annotations) st hP ?_
  intro b hb a _
  exact processImage_cats dd pfx lm cm ds.annotations b a S hanns hb

lemma mergeFold_cats (dd : Bool) (pm : String) (cp : Option (List String))
    (km : List ((String × String) × Int)) (inputs : List MergeInput)
    (cat_maps : List (List (Int × Int))) (S : List Int)
    (h : ∀ p ∈ (inputs.zip cat_maps).enum, ∀ a ∈ p.2.1.ds.annotations,
        ∃ v, dictGet? p.2.2 a.category_id = some v ∧ v ∈ S) :
    ∀ a ∈ (mergeFold dd pm cp km inputs cat_maps).annotations, a.category_id ∈ S := by
  unfold mergeFold
  refine List.foldlRecOn (motive := fun s : MergeState =>
      ∀ a ∈ s.annotations, a.category_id ∈ S)
    _ _ _ ?_ ?_
  · intro a ha0
    exact absurd ha0 (List.not_mem_nil a)
  · intro b hb p hp
    exact processDataset_cats dd (prefixFor pm cp p.2.1.stem p.1)
      (buildLicMap km p.2.1.ds.licenses) p.2.2 p.2.1.ds b S (h p hp) hb

/-- A successful per-dataset category check sends every category id of
the dataset to a canonical category id. -/
lemma catMapOne_ok_spec {firstCats : List Category} {abn : Bool} {ds : Dataset}
    {cm : List (Int × Int)} (h : catMapOne firstCats abn ds = .ok cm)
    (hids : (ds.categories.map (·.id)).Nodup)
    (hnames : (ds.categories.map (·.name)).Nodup) :
    ∀ k ∈ ds.categories.map (·.id),
      ∃ v, dictGet? cm k = some v ∧ v ∈ firstCats.map (·.id) := by
  unfold catMapOne at h
  by_cases h0 : ds.categories.isEmpty = true
  · rw [if_pos h0] at h; cases h
  · rw [if_neg h0] at h
    by_cases hsig : categories_signature ds.categories = categories_signature firstCats
    · rw [if_pos hsig] at h
      injection h with h
      subst h
      intro k hk
      refine ⟨k, identCatMap_get ds.categories k hk, ?_⟩
      have hp1 : List.Perm (categories_signature ds.categories)
          (ds.categories.map (fun c => (c.id, c.name))) := pySorted_perm _ _
      have hp2 : List.Perm (categories_signature firstCats)
          (firstCats.map (fun c => (c.id, c.name))) := pySorted_perm _ _
      have hk2 : k ∈ (ds.categories.map (fun c => (c.id, c.name))).map (·.1) := by
        rw [List.map_map]
        exact hk
      have hk3 : k ∈ (categories_signature ds.categories).map (·.1) :=
        ((hp1.map (·.1)).mem_iff).mpr hk2
      rw [hsig] at hk3
      have hk4 : k ∈ (firstCats.map (fun c => (c.id, c.name))).map (·.1) :=
        ((hp2.map (·.1)).mem_iff).mp hk3
      rw [List.map_map] at hk4
      exact hk4
    · rw [if_neg hsig] at h
      by_cases habn : (!abn) = true
      · rw [if_pos habn] at h; cases h
      · rw [if_neg habn] at h
        by_cases hss : (!sameSet (ds.categories.map (·.name)) (firstCats.map (·.name))) = true
        · rw [if_pos hss] at h; cases h
        · rw [if_neg hss] at h
          injection h with h
          subst h
          intro k hk
          obtain ⟨c, hc, hck⟩ := List.mem_map.mp hk
          subst hck
          have hlook := buildAlign_lookup ds.categories firstCats c hc hnames hids
          have hsame : sameSet (ds.categories.map (·.name)) (firstCats.map (·.name)) = true := by
            cases hval : sameSet (ds.categories.map (·.name)) (firstCats.map (·.name)) with
            | false => exact absurd (by rw [hval]; rfl) hss
            | true => rfl
          have hnm : c.name ∈ firstCats.map (·.name) :=
            sameSet_mem hsame (List.mem_map_of_mem _ hc)
          obtain ⟨v, hv⟩ := nameMap_isSome_of_mem firstCats c.name hnm
          exact ⟨v, by rw [hlook, hv], nameMap_mem firstCats c.name v hv⟩

/-- C3 (amended): in both producers every annotation's `image_id`
matches exactly one produced image; every annotation's `category_id`
matches exactly one produced category when the conversion synthesizes
its categories (no class list), and in a merge whose inputs have
duplicate-free category ids and names and whose annotations reference
their own dataset's categories.  (The original unconditional
`category_id` half is refuted by `claim_C3_counterexample`.) -/
theorem claim_C3 :
    (∀ (classes : List String) (sizes : String → Option (Int × Int)) (br : Option Int)
       (imgs : List YoloImg) (d : CocoOut),
      yolo_to_coco classes sizes br imgs = .ok d →
      ∀ a ∈ d.annotations,
        (d.images.filter (fun i => i.id == a.image_id)).length = 1) ∧
    (∀ (sizes : String → Option (Int × Int)) (br : Option Int)
       (imgs : List YoloImg) (d : CocoOut),
      yolo_to_coco [] sizes br imgs = .ok d →
      ∀ a ∈ d.annotations,
        (d.categories.filter (fun c => c.id == a.category_id)).length = 1) ∧
    (∀ (inputs : List MergeInput) (pm : String) (cp : Option (List String))
       (abn dd : Bool) (m : Dataset),
      merge_datasets inputs pm cp abn dd = .ok m →
      ∀ a ∈ m.annotations,
        (m.images.filter (fun i => i.id == a.image_id)).length = 1) ∧
    (∀ (inputs : List MergeInput) (pm : String) (cp : Option (List String))
       (abn dd : Bool) (m : Dataset),
      (∀ inp ∈ inputs,
        (inp.ds.categories.map (·.id)).Nodup ∧
        (inp.ds.categories.map (·.name)).Nodup ∧
        ∀ a ∈ inp.ds.annotations, a.category_id ∈ inp.ds.categories.map (·.id)) →
      merge_datasets inputs pm cp abn dd = .ok m →
      ∀ a ∈ m.annotations,
        (m.categories.filter (fun c => c.id == a.category_id)).length = 1) := by
  refine ⟨?_, ?_, ?_, ?_⟩
  · -- conversion: image references
    intro classes sizes br imgs d h a hamem
    obtain ⟨st, hi, ha, -, hrefs, -, -⟩ := conv_ok_st h
    refine count_one_of_mem_nodup d.images (·.id) a.image_id ?_ ?_
    · rw [(conv_ok_ids h).1]
      exact idRange_nodup _
    · rw [hi]
      exact hrefs a (ha ▸ hamem)
  · -- conversion with synthesized categories: category references
    intro sizes br imgs d h a hamem
    obtain ⟨st, -, ha, hc, -, hseen, hnd⟩ := conv_ok_st h
    rw [if_pos (show ([] : List String).isEmpty = true from rfl)] at hc
    refine count_one_of_mem_nodup d.categories (·.id) a.category_id ?_ ?_
    · rw [hc, List.map_map]
      refine List.Nodup.map (fun x y hxy => hxy) ?_
      exact ((pySorted_perm _ _).nodup_iff).mpr hnd
    · rw [hc, List.map_map]
      refine List.mem_map.mpr ⟨a.category_id, ?_, rfl⟩
      exact ((pySorted_perm _ _).mem_iff).mpr (hseen a (ha ▸ hamem))
  · -- merge: image references
    intro inputs pm cp abn dd m h a hamem
    obtain ⟨cat_maps, -, him, hann, -, -⟩ := merge_datasets_ok_parts h
    refine count_one_of_mem_nodup m.images (·.id) a.image_id ?_ ?_
    · rw [him, (mergeFold_ids dd pm cp _ inputs cat_maps).2.2.1]
      exact idRange_nodup _
    · rw [him]
      exact mergeFold_imgrefs dd pm cp _ inputs cat_maps a (hann ▸ hamem)
  · -- merge: category references
    intro inputs pm cp abn dd m hhyp h a hamem
    obtain ⟨cat_maps, hcm, -, hann, -, hcat⟩ := merge_datasets_ok_parts h
    cases inputs with
    | nil => simp [computeCatMaps] at hcm
    | cons finp rest =>
      simp only [computeCatMaps, List.map_cons] at hcm
      by_cases hfc : finp.ds.categories.isEmpty = true
      · rw [if_pos hfc] at hcm; cases hcm
      · rw [if_neg hfc] at hcm
        obtain ⟨-, hall⟩ := mapM_ok_get hcm
        have hanns : ∀ p ∈ ((finp :: rest).zip cat_maps).enum,
            ∀ b ∈ p.2.1.ds.annotations,
              ∃ v, dictGet? p.2.2 b.category_id = some v ∧
                v ∈ finp.ds.categories.map (·.id) := by
          intro p hp b hbmem
          have hzip : p.2 ∈ (finp :: rest).zip cat_maps := by
            rw [List.enum_eq_zip_range] at hp
            exact (List.of_mem_zip (by exact hp)).2
          obtain ⟨i, hg1, hg2⟩ := mem_zip_get hzip
          obtain ⟨y, hy, houty⟩ := hall i p.2.1.ds (by
            rw [← List.map_cons, List.get?_map, hg1]
            rfl)
          rw [hg2] at houty
          injection houty with houty
          obtain ⟨hidsN, hnamesN, hcov⟩ := hhyp p.2.1 (List.get?_mem hg1)
          rw [houty]
          exact catMapOne_ok_spec hy hidsN hnamesN b.category_id (hcov b hbmem)
        have hinv := mergeFold_cats dd pm cp
          (dedup_licenses (allLicenses ((finp :: rest).map (·.ds)))).2
          (finp :: rest) cat_maps _ hanns
        have hS : a.category_id ∈ finp.ds.categories.map (·.id) :=
          hinv a (hann ▸ hamem)
        have hcats : m.categories =
            pySorted (fun a b : Category => decide (a.id ≤ b.id)) finp.ds.categories := by
          rw [hcat]
          rfl
        have hperm : List.Perm (m.categories.map (·.id))
            (finp.ds.categories.map (·.id)) := by
          rw [hcats]
          exact (pySorted_perm _ _).map _
        obtain ⟨hidsF, -, -⟩ := hhyp finp (List.mem_cons_self _ _)
        refine count_one_of_mem_nodup m.categories (·.id) a.category_id ?_ ?_
        · exact (hperm.nodup_iff).mpr hidsF
        · exact hperm.mem_iff.mpr hS

/-- C3 counterexample: with a supplied one-name class list, an accepted
label line whose class index is 5 yields an annotation whose
`category_id` matches no category of the produced dataset, refuting the
unconditional `category_id` half of the original claim. -/
theorem claim_C3_counterexample :
    yolo_to_coco ["cat"] (fun s => some (100, 100)) none
        [{ relName := "img.jpg", labelLines := some ["5 0.5 0.5 0.2 0.2"] }] =
      .ok { images := [{ id := 1, file_name := "img.jpg", width := some 100, height := some 100 }],
            annotations := [{ id := 1, image_id := 1, category_id := 5, bbox := (40, 40, 20, 20), area := 400 }],
            categories := [{ id := 0, name := "cat" }] } ∧
    (([{ id := 0, name := "cat" }] : List Category).filter (fun c => c.id == (5 : Int))).length = 0 :=
  ⟨by with_unfolding_all rfl, by decide⟩

theorem claim_C3_witness :
    (yolo_to_coco [] (fun s => some (100, 100)) none
        [{ relName := "img.jpg", labelLines := some ["0 0.5 0.5 0.2 0.2"] }] =
      .ok { images := [{ id := 1, file_name := "img.jpg", width := some 100, height := some 100 }],
            annotations := [{ id := 1, image_id := 1, category_id := 0, bbox := (40, 40, 20, 20), area := 400 }],
            categories := [{ id := 0, name := "class_0" }] }) ∧
    (([{ id := 1, file_name := "img.jpg", width := some 100, height := some 100 }] : List Image).filter
        (fun i => i.id == (1 : Int))).length = 1 ∧
    (([{ id := 0, name := "class_0" }] : List Category).filter (fun c => c.id == (0 : Int))).length = 1 ∧
    (([{ id := 1, file_name := "a.jpg", width := some 10, height := some 10 },
       { id := 2, file_name := "b.jpg", width := some 10, height := some 10 }] : List Image).filter
        (fun i => i.id == (1 : Int))).length = 1 ∧
    (([{ id := 0, name := "cat" }, { id := 1, name := "dog" }] : List Category).filter
        (fun c => c.id == (0 : Int))).length = 1 := by
  refine ⟨by with_unfolding_all rfl, ?_, ?_, ?_, ?_⟩
  · exact claim_C3.1 [] (fun s => some (100, 100)) none
      [{ relName := "img.jpg", labelLines := some ["0 0.5 0.5 0.2 0.2"] }]
      { images := [{ id := 1, file_name := "img.jpg", width := some 100, height := some 100 }],
        annotations := [{ id := 1, image_id := 1, category_id := 0, bbox := (40, 40, 20, 20), area := 400 }],
        categories := [{ id := 0, name := "class_0" }] }
      (by with_unfolding_all rfl) _ (List.mem_singleton_self _)
  · exact claim_C3.2.1 (fun s => some (100, 100)) none
      [{ relName := "img.jpg", labelLines := some ["0 0.5 0.5 0.2 0.2"] }]
      { images := [{ id := 1, file_name := "img.jpg", width := some 100, height := some 100 }],
        annotations := [{ id := 1, image_id := 1, category_id := 0, bbox := (40, 40, 20, 20), area := 400 }],
        categories := [{ id := 0, name := "class_0" }] }
      (by with_unfolding_all rfl) _ (List.mem_singleton_self _)
  · exact claim_C3.2.2.1
      [{ stem := "d1",
         ds := { licenses := [],
                 images := [{ id := 1, file_name := "a.jpg", width := some 10, height := some 10 }],
                 annotations := [{ id := 1, image_id := 1, category_id := 0, bbox := (1, 1, 2, 2), area := 4 }],
                 categories := [{ id := 0, name := "cat" }, { id := 1, name := "dog" }] } },
       { stem := "d2",
         ds := { licenses := [],
                 images := [{ id := 1, file_name := "b.jpg", width := some 10, height := some 10 }],
                 annotations := [{ id := 1, image_id := 1, category_id := 0, bbox := (1, 1, 2, 2), area := 4 }],
                 categories := [{ id := 0, name := "dog" }, { id := 1, name := "cat" }] } }]
      "none" none true false
      { licenses := [],
        images := [{ id := 1, file_name := "a.jpg", width := some 10, height := some 10 },
                   { id := 2, file_name := "b.jpg", width := some 10, height := some 10 }],
        annotations := [{ id := 1, image_id := 1, category_id := 0, bbox := (1, 1, 2, 2), area := 4 },
                        { id := 2, image_id := 2, category_id := 1, bbox := (1, 1, 2, 2), area := 4 }],
        categories := [{ id := 0, name := "cat" }, { id := 1, name := "dog" }] }
      (by with_unfolding_all rfl) _ (List.mem_cons_self _ _)
  · exact claim_C3.2.2.2
      [{ stem := "d1",
         ds := { licenses := [],
                 images := [{ id := 1, file_name := "a.jpg", width := some 10, height := some 10 }],
                 annotations := [{ id := 1, image_id := 1, category_id := 0, bbox := (1, 1, 2, 2), area := 4 }],
                 categories := [{ id := 0, name := "cat" }, { id := 1, name := "dog" }] } },
       { stem := "d2",
         ds := { licenses := [],
                 images := [{ id := 1, file_name := "b.jpg", width := some 10, height := some 10 }],
                 annotations := [{ id := 1, image_id := 1, category_id := 0, bbox := (1, 1, 2, 2), area := 4 }],
                 categories := [{ id := 0, name := "dog" }, { id := 1, name := "cat" }] } }]
      "none" none true false
      { licenses := [],
        images := [{ id := 1, file_name := "a.jpg", width := some 10, height := some 10 },
                   { id := 2, file_name := "b.jpg", width := some 10, height := some 10 }],
        annotations := [{ id := 1, image_id := 1, category_id := 0, bbox := (1, 1, 2, 2), area := 4 },
                        { id := 2, image_id := 2, category_id := 1, bbox := (1, 1, 2, 2), area := 4 }],
        categories := [{ id := 0, name := "cat" }, { id := 1, name := "dog" }] }
      (by decide) (by with_unfolding_all rfl) _ (List.mem_cons_self _ _)

theorem claim_C5_witness :
    ([identCatMap [{ id := 0, name := "cat" }, { id := 1, name := "dog" }]].get? 0 =
      some (identCatMap [{ id := 0, name := "cat" }, { id := 1, name := "dog" }])) ∧
    (∃ e, merge_datasets
        [{ stem := "d1", ds := { categories := [{ id := 0, name := "cat" }] } },
         { stem := "d2", ds := { categories := [{ id := 0, name := "bird" }] } }]
        "none" none false false = .error e) ∧
    (categories_signature [{ id := 0, name := "dog" }, { id := 1, name := "cat" }] =
        categories_signature [{ id := 0, name := "cat" }, { id := 1, name := "dog" }] ∨
      sameSet ([({ id := 0, name := "dog" } : Category), { id := 1, name := "cat" }].map (·.name))
        ([({ id := 0, name := "cat" } : Category), { id := 1, name := "dog" }].map (·.name)) = true) ∧
    dictGet? (buildAlignMap [{ id := 0, name := "dog" }, { id := 1, name := "cat" }]
        [{ id := 0, name := "cat" }, { id := 1, name := "dog" }]) 0 =
      categoriesNameMap [{ id := 0, name := "cat" }, { id := 1, name := "dog" }] "dog" := by
  refine ⟨?_, ?_, ?_, ?_⟩
  · exact claim_C5.1
      ({ categories := [{ id := 0, name := "cat" }, { id := 1, name := "dog" }] } : Dataset) [] false
      [identCatMap [{ id := 0, name := "cat" }, { id := 1, name := "dog" }]] 0
      ({ categories := [{ id := 0, name := "cat" }, { id := 1, name := "dog" }] } : Dataset)
      (by with_unfolding_all rfl) rfl rfl
  · exact claim_C5.2.1
      { stem := "d1", ds := { categories := [{ id := 0, name := "cat" }] } }
      [{ stem := "d2", ds := { categories := [{ id := 0, name := "bird" }] } }]
      "none" none false 1
      { stem := "d2", ds := { categories := [{ id := 0, name := "bird" }] } }
      rfl (by decide)
  · exact (claim_C5.2.2.1
      { stem := "d1",
        ds := { licenses := [],
                images := [{ id := 1, file_name := "a.jpg", width := some 10, height := some 10 }],
                annotations := [{ id := 1, image_id := 1, category_id := 0, bbox := (1, 1, 2, 2), area := 4 }],
                categories := [{ id := 0, name := "cat" }, { id := 1, name := "dog" }] } }
      [{ stem := "d2",
         ds := { licenses := [],
                 images := [{ id := 1, file_name := "b.jpg", width := some 10, height := some 10 }],
                 annotations := [{ id := 1, image_id := 1, category_id := 0, bbox := (1, 1, 2, 2), area := 4 }],
                 categories := [{ id := 0, name := "dog" }, { id := 1, name := "cat" }] } }]
      "none" none false (by decide) (by decide)).mp
      ⟨{ licenses := [],
         images := [{ id := 1, file_name := "a.jpg", width := some 10, height := some 10 },
                    { id := 2, file_name := "b.jpg", width := some 10, height := some 10 }],
         annotations := [{ id := 1, image_id := 1, category_id := 0, bbox := (1, 1, 2, 2), area := 4 },
                         { id := 2, image_id := 2, category_id := 1, bbox := (1, 1, 2, 2), area := 4 }],
         categories := [{ id := 0, name := "cat" }, { id := 1, name := "dog" }] },
        by with_unfolding_all rfl⟩
      { stem := "d2",
        ds := { licenses := [],
                images := [{ id := 1, file_name := "b.jpg", width := some 10, height := some 10 }],
                annotations := [{ id := 1, image_id := 1, category_id := 0, bbox := (1, 1, 2, 2), area := 4 }],
                categories := [{ id := 0, name := "dog" }, { id := 1, name := "cat" }] } }
      (List.mem_cons_of_mem _ (List.mem_cons_self _ _))
  · exact claim_C5.2.2.2.1
      [{ id := 0, name := "dog" }, { id := 1, name := "cat" }]
      [{ id := 0, name := "cat" }, { id := 1, name := "dog" }]
      { id := 0, name := "dog" }
      (by decide) (by decide) (by decide)

/-! ## C2: round-trip tolerance -/


/-- Round-half-to-even is within one half of its argument. -/
lemma rhe_err (q : ℚ) : |((rhe q : Int) : ℚ) - q| ≤ 1 / 2 := by
  have h1 : ((⌊q⌋ : Int) : ℚ) ≤ q := Int.floor_le q
  have h2 : q < ((⌊q⌋ : Int) : ℚ) + 1 := Int.lt_floor_add_one q
  simp only [rhe]
  split_ifs with hc1 hc2 hc3 <;>
    · rw [abs_le]
      push_cast
      constructor <;> linarith

/-- Python rounding to `n` decimals is within half an ulp. -/
lemma pyRound_err (q : ℚ) (n : Nat) : |pyRound q n - q| ≤ 1 / (2 * 10 ^ n) := by
  have h10 : (0:ℚ) < 10 ^ n := by positivity
  have h := rhe_err (q * (10:ℚ) ^ n)
  unfold pyRound
  have hre : ((rhe (q * (10:ℚ) ^ n) : Int) : ℚ) / (10:ℚ) ^ n - q =
      (((rhe (q * (10:ℚ) ^ n) : Int) : ℚ) - q * (10:ℚ) ^ n) / (10:ℚ) ^ n := by
    field_simp
    ring
  rw [hre, abs_div, abs_of_pos h10]
  calc |((rhe (q * (10:ℚ) ^ n) : Int) : ℚ) - q * (10:ℚ) ^ n| / (10:ℚ) ^ n
      ≤ (1 / 2) / (10:ℚ) ^ n := by gcongr
    _ = 1 / (2 * 10 ^ n) := by ring

/-- Clamping to `[0,1]` never moves a value away from a point of
`[0,1]`. -/
lemma clamp01_contract (v a : ℚ) (h0 : 0 ≤ a) (h1 : a ≤ 1) :
    |clamp01 v - a| ≤ |v - a| := by
  unfold clamp01
  by_cases hva : v ≤ 1
  · by_cases hvb : 0 ≤ v
    · rw [min_eq_right hva, max_eq_right hvb]
    · have hv : v < 0 := lt_of_not_le hvb
      rw [min_eq_right hva, max_eq_left (le_of_lt hv)]
      have e1 : |(0:ℚ) - a| = a := by rw [zero_sub, abs_neg, abs_of_nonneg h0]
      have e2 : |v - a| = a - v := by rw [abs_of_nonpos (by linarith), neg_sub]
      rw [e1, e2]
      linarith
  · have hv : 1 < v := lt_of_not_le hva
    rw [min_eq_left (le_of_lt hv), max_eq_right (by norm_num : (0:ℚ) ≤ 1)]
    have e1 : |(1:ℚ) - a| = 1 - a := abs_of_nonneg (by linarith)
    have e2 : |v - a| = v - a := abs_of_nonneg (by linarith)
    rw [e1, e2]
    linarith

lemma maybeRound_natCast (n : Nat) (q : ℚ) : maybeRound (some (n : Int)) q = pyRound q n := by
  rw [show maybeRound (some (n : Int)) q =
    (if 0 ≤ (n : Int) then pyRound q (n : Int).toNat else q) from rfl]
  rw [if_pos (by exact_mod_cast Nat.zero_le n)]
  exact congrArg (pyRound q) (Int.toNat_natCast n)

/-- When the box stays inside the image, the forward clipping is the
identity and the bbox is the rounded exact geometry. -/
lemma yoloLineAnn_noclip (br : Option Int) (annId imgId W H : Int) (cls : Int) (xc yc w h : ℚ)
    (hx : 0 ≤ xc * (W:ℚ) - w * (W:ℚ) / 2) (hy : 0 ≤ yc * (H:ℚ) - h * (H:ℚ) / 2)
    (hw2 : w * (W:ℚ) ≤ (W:ℚ) - (xc * (W:ℚ) - w * (W:ℚ) / 2))
    (hh2 : h * (H:ℚ) ≤ (H:ℚ) - (yc * (H:ℚ) - h * (H:ℚ) / 2))
    (hw0 : 0 ≤ w * (W:ℚ)) (hh0 : 0 ≤ h * (H:ℚ)) :
    yoloLineAnn br annId imgId W H (cls, xc, yc, w, h) =
      { id := annId, image_id := imgId, category_id := cls,
        bbox := (maybeRound br (xc * (W:ℚ) - w * (W:ℚ) / 2),
                 maybeRound br (yc * (H:ℚ) - h * (H:ℚ) / 2),
                 maybeRound br (w * (W:ℚ)), maybeRound br (h * (H:ℚ))),
        area := maybeRound br ((w * (W:ℚ)) * (h * (H:ℚ))), iscrowd := 0 } := by
  unfold yoloLineAnn
  dsimp only
  rw [max_eq_right hx, max_eq_right hy, min_eq_left hw2, min_eq_left hh2,
    max_eq_right hw0, max_eq_right hh0]

/-- Error bound for a recovered center coordinate. -/
lemma clamp_center_err (n : Nat) (Wq u v t : ℚ) (hW : 1 ≤ Wq)
    (h0 : 0 ≤ t) (h1 : t ≤ 1) (hsum : u + v / 2 = t * Wq) :
    |clamp01 ((pyRound u n + pyRound v n / 2) / Wq) - t| ≤ 1 / 10 ^ n := by
  have hWpos : (0:ℚ) < Wq := lt_of_lt_of_le zero_lt_one hW
  have e1 := pyRound_err u n
  have e2 := pyRound_err v n
  have ht : t = (u + v / 2) / Wq := by
    rw [hsum, mul_div_cancel_right₀ t (ne_of_gt hWpos)]
  have key : |(pyRound u n + pyRound v n / 2) / Wq - t| ≤ 1 / 10 ^ n := by
    have hre : (pyRound u n + pyRound v n / 2) / Wq - t =
        ((pyRound u n - u) + (pyRound v n - v) / 2) / Wq := by
      rw [ht, div_sub_div_same,
        show pyRound u n + pyRound v n / 2 - (u + v / 2) =
          (pyRound u n - u) + (pyRound v n - v) / 2 from by ring]
    rw [hre, abs_div, abs_of_pos hWpos]
    have habs : |(pyRound u n - u) + (pyRound v n - v) / 2| ≤ 3 / (4 * 10 ^ n) := by
      calc |(pyRound u n - u) + (pyRound v n - v) / 2|
          ≤ |pyRound u n - u| + |(pyRound v n - v) / 2| := abs_add _ _
        _ = |pyRound u n - u| + |pyRound v n - v| / 2 := by
            rw [abs_div]
            norm_num
        _ ≤ 1 / (2 * 10 ^ n) + (1 / (2 * 10 ^ n)) / 2 := by gcongr
        _ = 3 / (4 * 10 ^ n) := by ring
    calc |(pyRound u n - u) + (pyRound v n - v) / 2| / Wq
        ≤ (3 / (4 * 10 ^ n)) / Wq := by gcongr
      _ ≤ 3 / (4 * 10 ^ n) := div_le_self (by positivity) hW
      _ ≤ 1 / 10 ^ n := by
          rw [show (1:ℚ) / 10 ^ n = 4 / (4 * 10 ^ n) from by ring]
          gcongr
          norm_num
  calc |clamp01 ((pyRound u n + pyRound v n / 2) / Wq) - t|
      ≤ |(pyRound u n + pyRound v n / 2) / Wq - t| := clamp01_contract _ _ h0 h1
    _ ≤ 1 / 10 ^ n := key

/-- Error bound for a recovered size coordinate. -/
lemma clamp_scale_err (n : Nat) (Wq w : ℚ) (hW : 1 ≤ Wq) (h0 : 0 ≤ w) (h1 : w ≤ 1) :
    |clamp01 (pyRound (w * Wq) n / Wq) - w| ≤ 1 / 10 ^ n := by
  have hWpos : (0:ℚ) < Wq := lt_of_lt_of_le zero_lt_one hW
  have e1 := pyRound_err (w * Wq) n
  have key : |pyRound (w * Wq) n / Wq - w| ≤ 1 / 10 ^ n := by
    have hre : pyRound (w * Wq) n / Wq - w = (pyRound (w * Wq) n - w * Wq) / Wq := by
      field_simp
      ring
    rw [hre, abs_div, abs_of_pos hWpos]
    calc |pyRound (w * Wq) n - w * Wq| / Wq
        ≤ (1 / (2 * 10 ^ n)) / Wq := by gcongr
      _ ≤ 1 / (2 * 10 ^ n) := div_le_self (by positivity) hW
      _ ≤ 1 / 10 ^ n := by
          rw [show (1:ℚ) / 10 ^ n = 2 / (2 * 10 ^ n) from by ring]
          gcongr
          norm_num
  calc |clamp01 (pyRound (w * Wq) n / Wq) - w|
      ≤ |pyRound (w * Wq) n / Wq - w| := clamp01_contract _ _ h0 h1
    _ ≤ 1 / 10 ^ n := key

/-- C2: for a normalized box in `[0,1]^4` on an image of positive
integer size whose absolute box stays inside the image (no clipping
effects), the forward transform of `yolo_to_coco` with rounding to `n`
decimals followed by the inverse transform of `coco_to_yolo_files`
recovers each normalized coordinate within `10^-n`. -/
theorem claim_C2 (n : Nat) (W H cls annId imgId : Int) (xc yc w h : ℚ)
    (hW : 1 ≤ W) (hH : 1 ≤ H)
    (hxc0 : 0 ≤ xc) (hxc1 : xc ≤ 1) (hyc0 : 0 ≤ yc) (hyc1 : yc ≤ 1)
    (hw0 : 0 ≤ w) (hw1 : w ≤ 1) (hh0 : 0 ≤ h) (hh1 : h ≤ 1)
    (hclipx : 0 ≤ xc * (W:ℚ) - w * (W:ℚ) / 2)
    (hclipy : 0 ≤ yc * (H:ℚ) - h * (H:ℚ) / 2)
    (hclipw : w * (W:ℚ) ≤ (W:ℚ) - (xc * (W:ℚ) - w * (W:ℚ) / 2))
    (hcliph : h * (H:ℚ) ≤ (H:ℚ) - (yc * (H:ℚ) - h * (H:ℚ) / 2)) :
    ∃ q : Int × ℚ × ℚ × ℚ × ℚ,
      yoloLineOf W H (fun c => some c)
        (yoloLineAnn (some (n : Int)) annId imgId W H (cls, xc, yc, w, h)) = some q ∧
      q.1 = cls ∧
      |q.2.1 - xc| ≤ 1 / 10 ^ n ∧ |q.2.2.1 - yc| ≤ 1 / 10 ^ n ∧
      |q.2.2.2.1 - w| ≤ 1 / 10 ^ n ∧ |q.2.2.2.2 - h| ≤ 1 / 10 ^ n := by
  have hWq : (1:ℚ) ≤ (W:ℚ) := by exact_mod_cast hW
  have hHq : (1:ℚ) ≤ (H:ℚ) := by exact_mod_cast hH
  have hWpos : (0:ℚ) < (W:ℚ) := lt_of_lt_of_le zero_lt_one hWq
  have hHpos : (0:ℚ) < (H:ℚ) := lt_of_lt_of_le zero_lt_one hHq
  have hw0W : 0 ≤ w * (W:ℚ) := mul_nonneg hw0 (le_of_lt hWpos)
  have hh0H : 0 ≤ h * (H:ℚ) := mul_nonneg hh0 (le_of_lt hHpos)
  have hA := yoloLineAnn_noclip (some (n : Int)) annId imgId W H cls xc yc w h
    hclipx hclipy hclipw hcliph hw0W hh0H
  rw [maybeRound_natCast, maybeRound_natCast, maybeRound_natCast, maybeRound_natCast,
    maybeRound_natCast] at hA
  refine ⟨(cls,
    clamp01 ((pyRound (xc * (W:ℚ) - w * (W:ℚ) / 2) n + pyRound (w * (W:ℚ)) n / 2) / (W:ℚ)),
    clamp01 ((pyRound (yc * (H:ℚ) - h * (H:ℚ) / 2) n + pyRound (h * (H:ℚ)) n / 2) / (H:ℚ)),
    clamp01 (pyRound (w * (W:ℚ)) n / (W:ℚ)),
    clamp01 (pyRound (h * (H:ℚ)) n / (H:ℚ))), ?_, rfl, ?_, ?_, ?_, ?_⟩
  · rw [hA]
    rfl
  · exact clamp_center_err n (W:ℚ) _ _ xc hWq hxc0 hxc1 (by ring)
  · exact clamp_center_err n (H:ℚ) _ _ yc hHq hyc0 hyc1 (by ring)
  · exact clamp_scale_err n (W:ℚ) w hWq hw0 hw1
  · exact clamp_scale_err n (H:ℚ) h hHq hh0 hh1

theorem claim_C2_witness :
    ∃ q : Int × ℚ × ℚ × ℚ × ℚ,
      yoloLineOf 100 100 (fun c => some c)
        (yoloLineAnn (some ((1 : Nat) : Int)) 1 1 100 100 (0, 1/2, 1/2, 1/5, 1/5)) = some q ∧
      q.1 = 0 ∧
      |q.2.1 - 1/2| ≤ 1 / 10 ^ (1 : Nat) ∧ |q.2.2.1 - 1/2| ≤ 1 / 10 ^ (1 : Nat) ∧
      |q.2.2.2.1 - 1/5| ≤ 1 / 10 ^ (1 : Nat) ∧ |q.2.2.2.2 - 1/5| ≤ 1 / 10 ^ (1 : Nat) :=
  claim_C2 1 100 100 0 1 1 (1/2) (1/2) (1/5) (1/5)
    (by norm_num) (by norm_num) (by norm_num) (by norm_num) (by norm_num) (by norm_num)
    (by norm_num) (by norm_num) (by norm_num) (by norm_num)
    (by norm_num) (by norm_num) (by norm_num) (by norm_num)

/-! ## C8: error propagation and the write trace -/

/-- The write loop writes exactly the label files of the longest valid
prefix and stops at the first invalid image. -/
lemma writeLabelLoop_spec (sk : Bool) (cmap : Int → Option Int) (anns : List Annotation) :
    ∀ (entries : List (Int × Image)) (evs : List WriteEvent),
      writeLabelLoop sk cmap anns entries evs =
        (evs ++ ((entries.takeWhile (fun p => validDims p.2)).map
            (labelEventsFor sk cmap anns)).join,
         match entries.dropWhile (fun p => validDims p.2) with
         | [] => none
         | p :: _ => some ("Image " ++ p.2.file_name ++ " missing valid width/height in COCO.")) := by
  intro entries
  induction entries with
  | nil => intro evs; simp [writeLabelLoop]
  | cons p rest ih =>
    intro evs
    obtain ⟨imgId, img⟩ := p
    cases hw : img.width with
    | none =>
      have hvd : validDims img = false := by simp [validDims, hw]
      simp only [writeLabelLoop, hw]
      rw [List.takeWhile_cons_of_neg (by simp [hvd]),
        List.dropWhile_cons_of_neg (by simp [hvd])]
      simp
    | some w =>
      cases hh : img.height with
      | none =>
        have hvd : validDims img = false := by simp [validDims, hw, hh]
        simp only [writeLabelLoop, hw, hh]
        rw [List.takeWhile_cons_of_neg (by simp [hvd]),
          List.dropWhile_cons_of_neg (by simp [hvd])]
        simp
      | some h =>
        by_cases hpos : (w > 0 && h > 0) = true
        · have hvd : validDims img = true := by simp [validDims, hw, hh, hpos]
          simp only [writeLabelLoop, hw, hh]
          rw [if_pos hpos]
          rw [ih]
          rw [List.takeWhile_cons_of_pos (by simp [hvd]),
            List.dropWhile_cons_of_pos (by simp [hvd])]
          simp only [List.map_cons, List.join]
          have hlef : labelEventsFor sk cmap anns (imgId, img) =
              if !((annsForImage anns imgId).filterMap (yoloLineOf w h cmap)).isEmpty || !sk then
                [.labelFile (pyStem img.file_name)
                  ((annsForImage anns imgId).filterMap (yoloLineOf w h cmap))]
              else [] := by
            simp only [labelEventsFor, hw, hh]
            rw [if_pos hpos]
          rw [hlef]
          by_cases hc : (!((annsForImage anns imgId).filterMap (yoloLineOf w h cmap)).isEmpty || !sk) = true
          · rw [if_pos hc, if_pos hc]
            simp [List.append_assoc]
          · rw [if_neg hc, if_neg hc]
            simp
        · have hvd : validDims img = false := by
            simp only [validDims, hw, hh]
            exact Bool.not_eq_true _ ▸ (by simpa using hpos)
          simp only [writeLabelLoop, hw, hh]
          rw [if_neg hpos]
          rw [List.takeWhile_cons_of_neg (by simp [hvd]),
            List.dropWhile_cons_of_neg (by simp [hvd])]
          simp

/-- A per-image contribution is only ever a label file. -/
lemma labelEventsFor_shape (sk : Bool) (cmap : Int → Option Int) (anns : List Annotation)
    (p : Int × Image) :
    ∀ ev ∈ labelEventsFor sk cmap anns p, ∃ st ls, ev = WriteEvent.labelFile st ls := by
  intro ev hev
  unfold labelEventsFor at hev
  split at hev
  · split at hev
    · split at hev
      · rw [List.mem_singleton] at hev
        exact ⟨_, _, hev⟩
      · cases hev
    · cases hev
  · cases hev

/-- C8 (amended): an error from `coco_to_yolo_files` never leaves a
class-name file in the write trace (it is written only after the whole
loop succeeds), and the write loop's trace is exactly the label files
of the longest prefix of images with valid sizes, with the error naming
the first invalid image.  (The "no partial output" half of the original
claim is refuted by `claim_C8_counterexample`: label files written
before the invalid image survive the failure.) -/
theorem claim_C8 :
    (∀ (coco : Dataset) (k s : Bool) (evs : List WriteEvent) (e : String),
      coco_to_yolo_files coco k s = (evs, some e) →
      ∀ names, WriteEvent.classesFile names ∉ evs) ∧
    (∀ (sk : Bool) (cmap : Int → Option Int) (anns : List Annotation)
       (entries : List (Int × Image)),
      writeLabelLoop sk cmap anns entries [] =
        (((entries.takeWhile (fun p => validDims p.2)).map
            (labelEventsFor sk cmap anns)).join,
         match entries.dropWhile (fun p => validDims p.2) with
         | [] => none
         | p :: _ => some ("Image " ++ p.2.file_name ++ " missing valid width/height in COCO."))) := by
  constructor
  · intro coco k s evs e h names hmem
    simp only [coco_to_yolo_files] at h
    split at h
    · injection h with h1 h2
      subst h1
      exact absurd hmem (List.not_mem_nil _)
    · split at h
      · injection h with h1 h2
        subst h1
        exact absurd hmem (List.not_mem_nil _)
      · split at h
        · rename_i evs2 err heq
          injection h with h1 h2
          subst h1
          rw [writeLabelLoop_spec] at heq
          injection heq with g1 g2
          rw [List.nil_append] at g1
          rw [← g1] at hmem
          obtain ⟨l, hl, hevl⟩ := List.mem_join.mp hmem
          obtain ⟨p, hp, hpf⟩ := List.mem_map.mp hl
          rw [← hpf] at hevl
          obtain ⟨st, ls, hshape⟩ := labelEventsFor_shape _ _ _ _ _ hevl
          exact WriteEvent.noConfusion hshape
        · injection h with h1 h2
          exact Option.noConfusion h2
  · intro sk cmap anns entries
    rw [writeLabelLoop_spec sk cmap anns entries [], List.nil_append]

/-- C8 counterexample: a dataset whose second image has width 0 fails,
but the first image's (empty) label file has already been written: the
error trace is nonempty, refuting "no partial output is produced". -/
theorem claim_C8_counterexample :
    coco_to_yolo_files
        { images := [{ id := 1, file_name := "a.jpg", width := some 5, height := some 5 },
                     { id := 2, file_name := "b.jpg", width := some 0, height := some 5 }],
          annotations := [],
          categories := [{ id := 0, name := "x" }] }
        false false =
      ([WriteEvent.labelFile "a" []], some "Image b.jpg missing valid width/height in COCO.") ∧
    ([WriteEvent.labelFile "a" []] : List WriteEvent) ≠ [] :=
  ⟨by with_unfolding_all rfl, by simp⟩

theorem claim_C8_witness :
    coco_to_yolo_files
        { images := [{ id := 1, file_name := "b.jpg", width := some 0, height := some 5 }],
          annotations := [], categories := [{ id := 0, name := "x" }] }
        false false =
      ([], some "Image b.jpg missing valid width/height in COCO.") ∧
    (∀ names, WriteEvent.classesFile names ∉ ([] : List WriteEvent)) ∧
    writeLabelLoop false (fun c => some c) []
        [((1 : Int), { id := 1, file_name := "a.jpg", width := some 5, height := some 5 })] [] =
      ([WriteEvent.labelFile "a" []], none) := by
  refine ⟨by with_unfolding_all rfl, ?_, ?_⟩
  · exact claim_C8.1
      { images := [{ id := 1, file_name := "b.jpg", width := some 0, height := some 5 }],
        annotations := [], categories := [{ id := 0, name := "x" }] }
      false false [] "Image b.jpg missing valid width/height in COCO."
      (by with_unfolding_all rfl)
  · exact (claim_C8.2 false (fun c => some c) []
      [((1 : Int), { id := 1, file_name := "a.jpg", width := some 5, height := some 5 })]).trans
      (by with_unfolding_all rfl)

end YoloCoco
